import Mathlib

/-!
# i3ctransfer: PEC / CRC8 and transfer building

A shallow embedding of `src/i3ctransfer.c` (the CRC8 table and engine, the read and
write transfer builders) together with theorems about it.

Conventions of the embedding
* A C string is the `List Char` of its characters before the terminating NUL.
* A byte (`uint8_t`) is a `Nat`; every conversion to a narrower C type that the
  source performs is written as an explicit `%`.
* A buffer returned by `calloc` is the `List Nat` of its bytes, so the number of
  bytes allocated is the length of the list.
-/

namespace I3CTransfer

/-! ## The target: what the C source leaves to the platform -/

/-- Platform facts the source depends on but does not fix.
`long_bits` is the width of `long` and of `size_t` (32 on ILP32, 64 on LP64);
`len_bits` is the width of the unsigned field `len` of `struct i3c_ioc_priv_xfer`,
whose declaration lives in `i3cdev.h` and not in the C file;
`calloc_ok n` says whether `calloc(n, 1)` returns a non-NULL pointer.
`int` is 32 bits wide on every Linux target and is not a parameter. -/
structure Target where
  long_bits : Nat
  len_bits : Nat
  calloc_ok : Nat → Bool

/-- An LP64 Linux target whose descriptor has a 16-bit `len` field and on which
every allocation succeeds. -/
def lp64 : Target := ⟨64, 16, fun _ => true⟩

/-- An ILP32 Linux target whose descriptor has a 16-bit `len` field and on which
every allocation succeeds. -/
def ilp32 : Target := ⟨32, 16, fun _ => true⟩

/-! ## CRC8 engine (`crc8_lookup`, `calc_crc8`) -/

/-- The table `crc8_lookup[256]`, verbatim. -/
def crc8_lookup : List Nat := [
  0x00, 0x07, 0x0E, 0x09, 0x1C, 0x1B, 0x12, 0x15, 0x38, 0x3F, 0x36, 0x31, 0x24, 0x23, 0x2A, 0x2D,
  0x70, 0x77, 0x7E, 0x79, 0x6C, 0x6B, 0x62, 0x65, 0x48, 0x4F, 0x46, 0x41, 0x54, 0x53, 0x5A, 0x5D,
  0xE0, 0xE7, 0xEE, 0xE9, 0xFC, 0xFB, 0xF2, 0xF5, 0xD8, 0xDF, 0xD6, 0xD1, 0xC4, 0xC3, 0xCA, 0xCD,
  0x90, 0x97, 0x9E, 0x99, 0x8C, 0x8B, 0x82, 0x85, 0xA8, 0xAF, 0xA6, 0xA1, 0xB4, 0xB3, 0xBA, 0xBD,
  0xC7, 0xC0, 0xC9, 0xCE, 0xDB, 0xDC, 0xD5, 0xD2, 0xFF, 0xF8, 0xF1, 0xF6, 0xE3, 0xE4, 0xED, 0xEA,
  0xB7, 0xB0, 0xB9, 0xBE, 0xAB, 0xAC, 0xA5, 0xA2, 0x8F, 0x88, 0x81, 0x86, 0x93, 0x94, 0x9D, 0x9A,
  0x27, 0x20, 0x29, 0x2E, 0x3B, 0x3C, 0x35, 0x32, 0x1F, 0x18, 0x11, 0x16, 0x03, 0x04, 0x0D, 0x0A,
  0x57, 0x50, 0x59, 0x5E, 0x4B, 0x4C, 0x45, 0x42, 0x6F, 0x68, 0x61, 0x66, 0x73, 0x74, 0x7D, 0x7A,
  0x89, 0x8E, 0x87, 0x80, 0x95, 0x92, 0x9B, 0x9C, 0xB1, 0xB6, 0xBF, 0xB8, 0xAD, 0xAA, 0xA3, 0xA4,
  0xF9, 0xFE, 0xF7, 0xF0, 0xE5, 0xE2, 0xEB, 0xEC, 0xC1, 0xC6, 0xCF, 0xC8, 0xDD, 0xDA, 0xD3, 0xD4,
  0x69, 0x6E, 0x67, 0x60, 0x75, 0x72, 0x7B, 0x7C, 0x51, 0x56, 0x5F, 0x58, 0x4D, 0x4A, 0x43, 0x44,
  0x19, 0x1E, 0x17, 0x10, 0x05, 0x02, 0x0B, 0x0C, 0x21, 0x26, 0x2F, 0x28, 0x3D, 0x3A, 0x33, 0x34,
  0x4E, 0x49, 0x40, 0x47, 0x52, 0x55, 0x5C, 0x5B, 0x76, 0x71, 0x78, 0x7F, 0x6A, 0x6D, 0x64, 0x63,
  0x3E, 0x39, 0x30, 0x37, 0x22, 0x25, 0x2C, 0x2B, 0x06, 0x01, 0x08, 0x0F, 0x1A, 0x1D, 0x14, 0x13,
  0xAE, 0xA9, 0xA0, 0xA7, 0xB2, 0xB5, 0xBC, 0xBB, 0x96, 0x91, 0x98, 0x9F, 0x8A, 0x8D, 0x84, 0x83,
  0xDE, 0xD9, 0xD0, 0xD7, 0xC2, 0xC5, 0xCC, 0xCB, 0xE6, 0xE1, 0xE8, 0xEF, 0xFA, 0xFD, 0xF4, 0xF3]

/-- The read `crc8_lookup[i]`. In the source the index is the XOR of two `uint8_t`
values and so is below 256; outside the table the model reads 0. -/
def crc8_at (i : Nat) : Nat := crc8_lookup.getD i 0

/-- The loop `while (len--) crc = crc8_lookup[crc ^ *ptr++];` with `len` iterations
left, `ptr` the bytes readable from the pointer on, and `crc` the running value.
`none` is a read past the end of the readable bytes. -/
def calc_crc8_loop : Nat → List Nat → Nat → Option Nat
  | 0, _, crc => some crc
  | _ + 1, [], _ => none
  | len + 1, b :: ptr, crc => calc_crc8_loop len ptr (crc8_at (crc ^^^ b))

/-- The function `calc_crc8(uint8_t *ptr, uint8_t len, uint8_t init_v)`: the caller's
length is converted to `uint8_t` on entry. -/
def calc_crc8 (ptr : List Nat) (len : Int) (init_v : Nat) : Option Nat :=
  calc_crc8_loop (len % 256).toNat ptr init_v

/-! ### Reference CRC-8, polynomial 0x07, bit by bit

This definition follows the specification's words, not the source: MSB first, not
reflected, initial value 0, no final XOR. -/

/-- One bit step: shift left by one within 8 bits, XOR 0x07 when the bit shifted out
was 1. -/
def crc8_reference_step (c : Nat) : Nat :=
  if c / 128 % 2 = 1 then (c * 2 % 256) ^^^ 0x07 else c * 2 % 256

/-- The reference CRC-8 of a single byte `b` from initial value 0: eight bit steps. -/
def crc8_reference_byte (b : Nat) : Nat :=
  crc8_reference_step^[8] (0 ^^^ b)

/-! ## C library functions used by the builders: `strtol` with base 0, `strtok`

Neither is part of the repository; they are modelled after ISO C (7.22.1.4 and
7.24.5.8) in the "C" locale. -/

/-- The predicate `isspace` in the "C" locale. -/
def isspace (c : Char) : Bool :=
  c = ' ' || c = '\t' || c = '\n' || c = '\x0b' || c = '\x0c' || c = '\r'

/-- The value of a character as a digit in some base up to 36, if it is alphanumeric. -/
def digit_value (c : Char) : Option Nat :=
  if '0' ≤ c ∧ c ≤ '9' then some (c.toNat - '0'.toNat)
  else if 'a' ≤ c ∧ c ≤ 'z' then some (c.toNat - 'a'.toNat + 10)
  else if 'A' ≤ c ∧ c ≤ 'Z' then some (c.toNat - 'A'.toNat + 10)
  else none

/-- The value of `c` as a digit of the given base, if it is one. -/
def base_digit (base : Nat) (c : Char) : Option Nat :=
  match digit_value c with
  | some d => if d < base then some d else none
  | none => none

/-- The subject sequence of `strtol`: the longest run of digits of the base, read
most significant first onto the accumulator. -/
def strtol_digits (base : Nat) : List Char → Nat → Nat
  | [], acc => acc
  | c :: s, acc =>
    match base_digit base c with
    | some d => strtol_digits base s (acc * base + d)
    | none => acc

/-- The largest `long`. -/
def LONG_MAX (t : Target) : Int := 2 ^ (t.long_bits - 1) - 1

/-- The smallest `long`. -/
def LONG_MIN (t : Target) : Int := -(2 ^ (t.long_bits - 1))

/-- The base chosen by `strtol` for base 0 and the text the digits are read from:
16 after `0x` or `0X` when a hexadecimal digit follows, 8 after a leading `0`,
10 otherwise. -/
def strtol_base : List Char → Nat × List Char
  | '0' :: x :: h :: s =>
    if (x = 'x' ∨ x = 'X') ∧ (base_digit 16 h).isSome then (16, h :: s)
    else (8, '0' :: x :: h :: s)
  | '0' :: s => (8, '0' :: s)
  | s => (10, s)

/-- The magnitude and sign read by `strtol` after the white space. -/
def strtol_signed : List Char → Int
  | '-' :: s => -((strtol_digits (strtol_base s).1 (strtol_base s).2 0 : Nat) : Int)
  | '+' :: s => ((strtol_digits (strtol_base s).1 (strtol_base s).2 0 : Nat) : Int)
  | s => ((strtol_digits (strtol_base s).1 (strtol_base s).2 0 : Nat) : Int)

/-- The call `strtol(nptr, NULL, 0)`: skip white space, read an optional sign, choose
the base, read the digits; 0 when there is no digit; a value outside the range of
`long` is replaced by `LONG_MAX` or `LONG_MIN`. -/
def strtol (t : Target) (nptr : List Char) : Int :=
  max (LONG_MIN t) (min (LONG_MAX t) (strtol_signed (nptr.dropWhile isspace)))

/-- One call of `strtok` on the text at the scanning position (`arg` for the first
call, the saved position for `strtok(NULL, delim)`): the token found, or `none` for
a NULL return, and the text at the new saved position. Leading delimiters are
skipped; the token runs to the next delimiter, which is overwritten with NUL. -/
def strtok (s delim : List Char) : Option (List Char) × List Char :=
  match s.dropWhile (fun c => delim.contains c) with
  | [] => (none, [])
  | c :: r =>
    (some ((c :: r).takeWhile (fun c => !delim.contains c)),
     ((c :: r).dropWhile (fun c => !delim.contains c)).drop 1)

/-! ## Conversions between C integer types -/

/-- Conversion of a `long` to `int` (32 bits, two's complement wrap-around). -/
def to_int (v : Int) : Int := (v + 2 ^ 31) % 2 ^ 32 - 2 ^ 31

/-- Conversion of an integer to `uint8_t`. -/
def to_uint8 (v : Int) : Nat := (v % 256).toNat

/-- Conversion of an integer to `size_t`. -/
def to_size_t (t : Target) (v : Int) : Nat := (v % 2 ^ t.long_bits).toNat

/-- Conversion of an integer to the type of the descriptor's `len` field. -/
def to_len (t : Target) (v : Int) : Nat := (v % 2 ^ t.len_bits).toNat

/-! ## Transfer descriptors and their builders -/

/-- Modelled from the spec: the transfer descriptor `struct i3c_ioc_priv_xfer`, which
is declared in `i3cdev.h` and not in the C file. `data` is the buffer the pointer
field refers to (its length is the number of bytes allocated), `len` the byte count
field, `rnw` the direction field (1 for Read, 0 for Write). -/
structure i3c_ioc_priv_xfer where
  data : List Nat
  len : Nat
  rnw : Nat
deriving DecidableEq

/-- An element of the array `xfers` as `calloc` leaves it in `main`. -/
def xfer_zero : i3c_ioc_priv_xfer := ⟨[], 0, 0⟩

/-- The function `rx_args_to_xfer(xfer, arg)`. It reads the length from the global
`optarg`, not from `arg`; `main` passes `optarg` for `arg`. The result is the value
returned together with `*xfer` afterwards. -/
def rx_args_to_xfer (t : Target) (optarg : List Char) (xfer : i3c_ioc_priv_xfer)
    (_arg : List Char) : Int × i3c_ioc_priv_xfer :=
  let len : Int := to_int (strtol t optarg)
  if t.calloc_ok (to_size_t t len) then
    (0, { xfer with rnw := 1, len := to_len t len,
                    data := List.replicate (to_size_t t len) 0 })
  else (-1, xfer)

/-- The loop `while (data_ptrs[i] && i < 255) data_ptrs[++i] = strtok(NULL, ",");`
with `255 - i` as first argument, `data_ptrs[i]` as second and the saved position of
`strtok` as third. The result is `data_ptrs[i], data_ptrs[i+1], ...` up to the final
value of `i` (excluded). -/
def strtok_loop : Nat → Option (List Char) → List Char → List (List Char)
  | 0, _, _ => []
  | _ + 1, none, _ => []
  | n + 1, some p, saved =>
    p :: strtok_loop n (strtok saved [',']).1 (strtok saved [',']).2

/-- The entries `data_ptrs[0 .. i-1]` after lines 102-105 of the source. -/
def data_ptrs (arg : List Char) : List (List Char) :=
  strtok_loop 255 (strtok arg [',']).1 (strtok arg [',']).2

/-- The loop `for (len = 0; len < i; len++) tmp[len] = (uint8_t)strtol(data_ptrs[len], NULL, 0);`
from index `len` on, the first argument being `data_ptrs[len .. i-1]`. -/
def fill_loop (t : Target) : List (List Char) → Nat → List Nat → List Nat
  | [], _, tmp => tmp
  | p :: ps, len, tmp => fill_loop t ps (len + 1) (tmp.set len (to_uint8 (strtol t p)))

/-- The function `w_args_to_xfer(xfer, arg, pec_en)`, with the global `dev_dyn_addr` as
an argument. The result is the value returned together with `*xfer` afterwards;
`none` is an access outside the allocated buffer. The line written to `stdout` when
the PEC is appended is not part of the result. -/
def w_args_to_xfer (t : Target) (dev_dyn_addr : Nat) (xfer : i3c_ioc_priv_xfer)
    (arg : List Char) (pec_en : Int) : Option (Int × i3c_ioc_priv_xfer) :=
  let first_byte : Nat := dev_dyn_addr * 2 % 2 ^ 32 % 256
  let ptrs := data_ptrs arg
  let i : Nat := ptrs.length
  let size : Nat := if pec_en ≠ 0 then i + 1 else i
  if t.calloc_ok size then
    let tmp := fill_loop t ptrs 0 (List.replicate size 0)
    let len : Nat := i
    if pec_en ≠ 0 then
      match tmp[0]? with
      | none => none
      | some b0 =>
        let crc :=
          if 0xff = b0 then calc_crc8 (tmp.drop 1) ((len : Int) - 1) 0
          else (calc_crc8 [first_byte] 1 0).bind (fun crc => calc_crc8 tmp len crc)
        match crc with
        | none => none
        | some crc =>
          if len < tmp.length then
            some (0, { xfer with len := to_len t ((len : Int) + 1), data := tmp.set len crc })
          else none
    else some (0, { xfer with len := to_len t len, data := tmp })
  else some (-1, xfer)

/-! ## Vocabulary of the specification

These definitions follow the specification's words: what a well-formed integer token
is and what it denotes, and what the bytes of a comma-separated list are. -/

/-- The C string of a Lean string literal. -/
def cstr (s : String) : List Char := s.toList

/-- A decimal digit. -/
def is_digit (c : Char) : Bool := decide ('0' ≤ c ∧ c ≤ '9')

/-- A hexadecimal digit. -/
def is_xdigit (c : Char) : Bool :=
  decide (('0' ≤ c ∧ c ≤ '9') ∨ ('a' ≤ c ∧ c ≤ 'f') ∨ ('A' ≤ c ∧ c ≤ 'F'))

/-- The number written by a run of digits in the given base, most significant first. -/
def numeral_value (base : Nat) (ds : List Char) : Nat :=
  ds.foldl (fun acc c => acc * base + (digit_value c).getD 0) 0

/-- A decimal integer token: one or more decimal digits, without a leading zero
unless the token is `0` itself. -/
def decimal_token : List Char → Bool
  | [] => false
  | ['0'] => true
  | c :: s => c ≠ '0' && (c :: s).all is_digit

/-- A `0x`-prefixed hexadecimal integer token: `0x` or `0X` and one or more
hexadecimal digits. -/
def hex_token : List Char → Bool
  | '0' :: x :: h :: s => (x = 'x' || x = 'X') && (h :: s).all is_xdigit
  | _ => false

/-- A well-formed integer token in decimal or `0x`-prefixed hexadecimal notation. -/
def int_token (s : List Char) : Bool := decimal_token s || hex_token s

/-- The number a well-formed integer token denotes. -/
def token_value (s : List Char) : Nat :=
  if hex_token s then numeral_value 16 (s.drop 2) else numeral_value 10 s

/-- A list of tokens written with one comma between neighbours. -/
def comma_join : List (List Char) → List Char
  | [] => []
  | [s] => s
  | s :: s' :: rest => s ++ ',' :: comma_join (s' :: rest)

/-- The CRC8 of a byte string from a seed: the table step folded over the bytes. -/
def crc8 (seed : Nat) (bytes : List Nat) : Nat :=
  bytes.foldl (fun c b => crc8_at (c ^^^ b)) seed

/-- The write payload: the bytes that lines 102-115 of the source parse out of the
argument, one per entry of `data_ptrs`. -/
def write_payload (t : Target) (arg : List Char) : List Nat :=
  (data_ptrs arg).map (fun p => to_uint8 (strtol t p))

/-- The PEC byte of `w_args_to_xfer` for the payload `P` and the address byte
`first_byte`, as a fold: over the payload without its first byte from seed 0 when
the first byte is 0xFF, over the address byte and then the payload otherwise. -/
def pec_byte (first_byte : Nat) (P : List Nat) : Nat :=
  if 0xff = P.headD 0 then crc8 0 P.tail else crc8 (crc8 0 [first_byte]) P

/-- The initialiser `uint8_t first_byte = dev_dyn_addr << 1` of `w_args_to_xfer`: the
shift is done in `uint32_t` and the result converted to `uint8_t`. -/
def first_byte (dev_dyn_addr : Nat) : Nat := dev_dyn_addr * 2 % 2 ^ 32 % 256

/-- The buffer `tmp` of `w_args_to_xfer` at the comparison `0xff == tmp[0]` (line 118),
which is reached only with PEC enabled: `calloc(i + 1)` followed by the fill loop. -/
def tmp_at_pec_check (t : Target) (arg : List Char) : List Nat :=
  fill_loop t (data_ptrs arg) 0 (List.replicate ((data_ptrs arg).length + 1) 0)

/-! ## The program `main`

The option scanner `getopt_long` belongs to the C library. Its effect is taken as the
sequence of pairs (option character, `optarg`) that it returns up to `EOF`; `main`
scans the command line twice and receives the same sequence both times. -/

/-- Conversion of an integer to `uint32_t`. -/
def to_uint32 (v : Int) : Nat := (v % 2 ^ 32).toNat

/-- What `main` needs from the operating system.
`device_init` is the value of the local `device`, which has no initialiser, when no
`-d` option assigns it (`none` for a null pointer);
`open_ok path` says whether `open(path, O_RDWR)` returns a descriptor;
`xfers_calloc_ok n` says whether `calloc(n, sizeof(*xfers))` returns a non-NULL pointer;
`ioctl batch` is the private-transfer request on the batch: `none` when it fails,
otherwise the descriptors as the driver leaves them, with the bytes received in the
buffers of the read transfers. -/
structure Sys where
  device_init : Option (List Char)
  open_ok : List Char → Bool
  xfers_calloc_ok : Nat → Bool
  ioctl : List i3c_ioc_priv_xfer → Option (List i3c_ioc_priv_xfer)

/-- The variables set by the first scan of the options (lines 177-204): the locals
`device`, `pec_en`, `nxfers` and the global `dev_dyn_addr`. -/
structure Options where
  device : Option (List Char)
  pec_en : Int
  dev_dyn_addr : Nat
  nxfers : Nat
deriving DecidableEq

/-- The variables at the start of `main`: `pec_en = 0`, `nxfers = 0`, the global
`dev_dyn_addr = 0x70`, `device` not initialised. -/
def options_init (sys : Sys) : Options := ⟨sys.device_init, 0, 0x70, 0⟩

/-- One round of the first `switch` (lines 178-203) for the option `opt` with
argument `optarg`: the variables afterwards, or, on the left, the status the program
exits with. -/
def first_switch (t : Target) (o : Options) (opt : Char) (optarg : List Char) :
    Int ⊕ Options :=
  if opt = 'h' then .inl 0
  else if opt = 'v' then .inl 0
  else if opt = 'd' then .inr { o with device := some optarg }
  else if opt = 'p' then .inr { o with pec_en := to_int (strtol t optarg) }
  else if opt = 'a' then .inr { o with dev_dyn_addr := to_uint32 (strtol t optarg) }
  else if opt = 'r' ∨ opt = 'w' then .inr { o with nxfers := o.nxfers + 1 }
  else .inl 1

/-- The first `while` loop over the options (lines 177-204). -/
def first_pass (t : Target) : Options → List (Char × List Char) → Int ⊕ Options
  | o, [] => .inr o
  | o, (opt, optarg) :: rest =>
    match first_switch t o opt optarg with
    | .inl status => .inl status
    | .inr o' => first_pass t o' rest

/-- The variables the second scan works on: the global `dev_dyn_addr`, the array
`xfers` and the local `nxfers`. -/
structure BuildState where
  dev_dyn_addr : Nat
  xfers : List i3c_ioc_priv_xfer
  nxfers : Nat
deriving DecidableEq

/-- How a scan of the options ends: it runs to the end (`done`), it leaves through
`goto err_free` with `ret = EXIT_FAILURE` (`failed`), or it accesses `xfers` outside
the array or a builder leaves its buffer (`undefined`). -/
inductive Pass where
  | done (st : BuildState)
  | failed (st : BuildState)
  | undefined
deriving DecidableEq

/-- One round of the second `switch` (lines 221-243) for the option `opt` with
argument `optarg`. The options `h`, `v`, `d`, `p` break out; `r` and `w` call the
builder on `&xfers[nxfers]`; any other option has no case. -/
def second_switch (t : Target) (pec_en : Int) (st : BuildState) (opt : Char)
    (optarg : List Char) : Pass :=
  if opt = 'r' then
    match st.xfers[st.nxfers]? with
    | none => .undefined
    | some x =>
      if (rx_args_to_xfer t optarg x optarg).1 ≠ 0 then .failed st
      else .done { st with xfers := st.xfers.set st.nxfers (rx_args_to_xfer t optarg x optarg).2,
                           nxfers := st.nxfers + 1 }
  else if opt = 'w' then
    match st.xfers[st.nxfers]? with
    | none => .undefined
    | some x =>
      match w_args_to_xfer t st.dev_dyn_addr x optarg pec_en with
      | none => .undefined
      | some r =>
        if r.1 ≠ 0 then .failed st
        else .done { st with xfers := st.xfers.set st.nxfers r.2, nxfers := st.nxfers + 1 }
  else .done st

/-- The second `while` loop over the options (lines 220-244). -/
def second_pass (t : Target) (pec_en : Int) : BuildState → List (Char × List Char) → Pass
  | st, [] => .done st
  | st, (opt, optarg) :: rest =>
    match second_switch t pec_en st opt optarg with
    | .done st' => second_pass t pec_en st' rest
    | .failed st' => .failed st'
    | .undefined => .undefined

/-- The text printed for `%d` with a non-negative argument. -/
def print_d (v : Nat) : List Char := Nat.toDigits 10 v

/-- The text printed for `%02x`: lower-case hexadecimal, at least two digits, padded
with zeros on the left. -/
def print_02x (v : Nat) : List Char :=
  List.replicate (2 - (Nat.toDigits 16 v).length) '0' ++ Nat.toDigits 16 v

/-- The loop `for (i = 0; i < xfer->len; i++) fprintf(stdout, "    0x%02x\n", tmp[i]);` of
`print_rx_data`, with `xfer->len - i` as second argument and `i` as third; `none` is a
read outside `tmp`. -/
def print_rx_loop (tmp : List Nat) : Nat → Nat → Option (List Char)
  | 0, _ => some []
  | n + 1, i =>
    match tmp[i]? with
    | none => none
    | some b =>
      match print_rx_loop tmp n (i + 1) with
      | none => none
      | some rest => some (cstr "    0x" ++ print_02x b ++ cstr "\n" ++ rest)

/-- The function `print_rx_data(xfer)`: the text it writes to `stdout`. Nothing is
printed when its `calloc` fails; `none` is a `memcpy` that reads past the end of the
descriptor's buffer. -/
def print_rx_data (t : Target) (xfer : i3c_ioc_priv_xfer) : Option (List Char) :=
  if t.calloc_ok xfer.len then
    if xfer.len ≤ xfer.data.length then
      match print_rx_loop (xfer.data.take xfer.len) xfer.len 0 with
      | none => none
      | some lines => some (cstr "  received data:\n" ++ lines)
    else none
  else some []

/-- The loop of lines 252-256 over the descriptors after the request, with
`nxfers - i` as third argument and `i` as fourth: the text written to `stdout`;
`none` is an access outside `xfers` or an undefined `print_rx_data`. -/
def report_loop (t : Target) (xfers : List i3c_ioc_priv_xfer) : Nat → Nat → Option (List Char)
  | 0, _ => some []
  | n + 1, i =>
    match xfers[i]? with
    | none => none
    | some x =>
      match (if x.rnw ≠ 0 then print_rx_data t x else some []) with
      | none => none
      | some dump =>
        match report_loop t xfers n (i + 1) with
        | none => none
        | some rest =>
          some (cstr "Success on message " ++ print_d i ++ cstr "\n" ++ dump ++ rest)

/-- How the part of `main` before the request (lines 177-244) ends: the program
exits with a status, or it has a batch to submit. -/
inductive Built where
  | exit (status : Int)
  | submit (batch : List i3c_ioc_priv_xfer)
deriving DecidableEq

/-- The function `main` up to the request (lines 177-244): first scan, the checks on
the device and on the array `xfers`, second scan. The batch is the first `nxfers`
elements of `xfers`. `none` is undefined behaviour in the second scan. -/
def main_build (t : Target) (sys : Sys) (opts : List (Char × List Char)) : Option Built :=
  match first_pass t (options_init sys) opts with
  | .inl status => some (.exit status)
  | .inr o =>
    match o.device with
    | none => some (.exit 1)
    | some device =>
      if sys.open_ok device then
        if sys.xfers_calloc_ok o.nxfers then
          match second_pass t o.pec_en
              ⟨o.dev_dyn_addr, List.replicate o.nxfers xfer_zero, 0⟩ opts with
          | .done st => some (.submit (st.xfers.take st.nxfers))
          | .failed _ => some (.exit 1)
          | .undefined => none
        else some (.exit 1)
      else some (.exit 1)

/-- What a run of `main` leaves behind: the exit status, the batch handed to the
request if the run got that far, and the report, the text that lines 252-256 and
`print_rx_data` write to `stdout`. Messages on `stderr` and the line printed by the
write builder are not part of it. -/
structure Run where
  status : Int
  submitted : Option (List i3c_ioc_priv_xfer)
  report : List Char
deriving DecidableEq

/-- The function `main`. `none` is undefined behaviour. -/
def main (t : Target) (sys : Sys) (opts : List (Char × List Char)) : Option Run :=
  match main_build t sys opts with
  | none => none
  | some (.exit status) => some ⟨status, none, []⟩
  | some (.submit batch) =>
    match sys.ioctl batch with
    | none => some ⟨1, some batch, []⟩
    | some xfers =>
      match report_loop t xfers batch.length 0 with
      | none => none
      | some text => some ⟨0, some batch, text⟩

/-! ### Vocabulary of the specification for `main` -/

/-- The options that stand for a transfer: `-r` and `-w`. -/
def is_transfer (oa : Char × List Char) : Bool := oa.1 = 'r' || oa.1 = 'w'

/-- The address the options configure: the default 0x70, or what the last `-a` option
says. -/
def configured_address (t : Target) : List (Char × List Char) → Nat → Nat
  | [], a => a
  | (opt, optarg) :: rest, a =>
    configured_address t rest (if opt = 'a' then to_uint32 (strtol t optarg) else a)

/-- The descriptor `d` is the one built from the option occurrence `oa`: by
`rx_args_to_xfer` as a Read for `-r`, by `w_args_to_xfer` with the address `a` and the
PEC flag as a Write for `-w`. -/
def built_from (t : Target) (a : Nat) (pec_en : Int) (oa : Char × List Char)
    (d : i3c_ioc_priv_xfer) : Prop :=
  (oa.1 = 'r' ∧ rx_args_to_xfer t oa.2 xfer_zero oa.2 = (0, d) ∧ d.rnw = 1)
  ∨ (oa.1 = 'w' ∧ w_args_to_xfer t a xfer_zero oa.2 pec_en = some (0, d) ∧ d.rnw = 0)

/-- The report entry of the descriptor with index `i`: one success line, and for a
Read descriptor the data header and one line per byte for the first `len` bytes of
its buffer. -/
def report_entry (i : Nat) (x : i3c_ioc_priv_xfer) : List Char :=
  cstr "Success on message " ++ print_d i ++ cstr "\n"
    ++ (if x.rnw ≠ 0 then
          cstr "  received data:\n"
            ++ ((x.data.take x.len).map
                  (fun b => cstr "    0x" ++ print_02x b ++ cstr "\n")).flatten
        else [])

/-- The report of a batch: the entries of its descriptors in order, numbered from `i`. -/
def report_text : Nat → List i3c_ioc_priv_xfer → List Char
  | _, [] => []
  | i, x :: xs => report_entry i x ++ report_text (i + 1) xs

/-- A system with the device `/dev/i3c-0`, on which every allocation succeeds and
every request succeeds and fills the read buffers with the bytes 0xAB, 0xAC, ... -/
def sys_demo : Sys :=
  ⟨none, fun path => path = cstr "/dev/i3c-0", fun _ => true,
   fun batch => some (batch.map (fun x =>
     if x.rnw ≠ 0 then { x with data := (List.range x.data.length).map (fun j => 0xAB + j) }
     else x))⟩

/-- The byte at index `j` of the write payload `P` is covered by the PEC: it is a byte
of the payload, and it is not the first byte of a CCC payload (one that starts with
0xFF), which `w_args_to_xfer` leaves out of the CRC. -/
def pec_covered (P : List Nat) (j : Nat) : Bool :=
  decide (j < P.length ∧ ¬ (j = 0 ∧ P.head? = some 0xff))

/-! ## Theorems -/

/-- Running the loop over exactly the readable bytes is a left fold of the table
step, and never reads out of bounds. -/
theorem calc_crc8_loop_eq_foldl (ptr : List Nat) (crc : Nat) :
    calc_crc8_loop ptr.length ptr crc
      = some (ptr.foldl (fun c b => crc8_at (c ^^^ b)) crc) := by
  induction ptr generalizing crc with
  | nil => rfl
  | cons b ptr ih => simp [calc_crc8_loop, ih]

/-- With more readable bytes than iterations, the loop only looks at the first
`len` bytes. -/
theorem calc_crc8_loop_append (A B : List Nat) (crc : Nat) :
    calc_crc8_loop A.length (A ++ B) crc = calc_crc8_loop A.length A crc := by
  induction A generalizing crc with
  | nil => rfl
  | cons b A ih => simp [calc_crc8_loop, ih]

/-- A sequence short enough for the 8-bit count is folded as a whole. -/
theorem calc_crc8_eq_foldl (ptr : List Nat) (crc : Nat) (h : ptr.length < 256) :
    calc_crc8 ptr ptr.length crc
      = some (ptr.foldl (fun c b => crc8_at (c ^^^ b)) crc) := by
  unfold calc_crc8
  have : ((ptr.length : Int) % 256).toNat = ptr.length := by omega
  rw [this, calc_crc8_loop_eq_foldl]

/-- C1: for each of the 256 byte values `b`, `calc_crc8` over the one-byte sequence
`[b]` with seed 0 returns `crc8_lookup[b]`, and this is the standard CRC-8 of `b` for
polynomial 0x07 computed bit by bit. -/
theorem crc8_single_byte_matches_reference :
    ∀ b, b < 256 →
      calc_crc8 [b] 1 0 = some (crc8_at b) ∧ crc8_at b = crc8_reference_byte b := by
  decide!

/-- C1 at the byte 0x80: the table entry 0x89 is the bit-by-bit CRC-8 of 0x80. -/
theorem crc8_single_byte_matches_reference_witness :
    (0x80 : Nat) < 256 ∧
      (calc_crc8 [0x80] 1 0 = some (crc8_at 0x80) ∧ crc8_at 0x80 = crc8_reference_byte 0x80) :=
  ⟨by decide, crc8_single_byte_matches_reference 0x80 (by decide)⟩

set_option maxRecDepth 100000 in
/-- C2 as stated fails when the joined sequence has 256 bytes: its length is 0 as an
8-bit count, so `calc_crc8` on `A ++ B` returns the seed, while the two-step
computation does not. Here `A = [1]`, `B` is 255 zero bytes and the seed is 0. -/
theorem calc_crc8_composition_fails_at_256 :
    (calc_crc8 [1] ([1] : List Nat).length 0).bind
        (fun c => calc_crc8 (List.replicate 255 0) (List.replicate 255 0).length c)
      = some 0x15
    ∧ calc_crc8 ([1] ++ List.replicate 255 0) ([1] ++ List.replicate 255 0 : List Nat).length 0
      = some 0 := by
  decide!

/-- C2, amended: for every seed `s` and all byte sequences `A` and `B` whose joined
length is at most 255 (so that it fits the 8-bit count), the three calls return and
`calc_crc8(B, calc_crc8(A, s)) = calc_crc8(A ++ B, s)`. -/
theorem calc_crc8_composable (s : Nat) (A B : List Nat) (h : A.length + B.length ≤ 255) :
    ∃ c r, calc_crc8 A A.length s = some c ∧ calc_crc8 B B.length c = some r
      ∧ calc_crc8 (A ++ B) (A ++ B).length s = some r := by
  refine ⟨crc8 s A, crc8 (crc8 s A) B, ?_, ?_, ?_⟩
  · exact calc_crc8_eq_foldl A s (by omega)
  · exact calc_crc8_eq_foldl B _ (by omega)
  · rw [calc_crc8_eq_foldl (A ++ B) s (by simp; omega)]
    simp [crc8, List.foldl_append]

/-- C2, amended, at seed 0x5A with `A = [0x10, 0x20]` and `B = [0x30]`. -/
theorem calc_crc8_composable_witness :
    ([0x10, 0x20] : List Nat).length + ([0x30] : List Nat).length ≤ 255 ∧
    ∃ c r, calc_crc8 [0x10, 0x20] ([0x10, 0x20] : List Nat).length 0x5A = some c
      ∧ calc_crc8 [0x30] ([0x30] : List Nat).length c = some r
      ∧ calc_crc8 ([0x10, 0x20] ++ [0x30]) ([0x10, 0x20] ++ [0x30] : List Nat).length 0x5A
          = some r :=
  ⟨by decide, calc_crc8_composable 0x5A [0x10, 0x20] [0x30] (by decide)⟩

/-! ### The write builder, phase by phase -/

/-- The tokenising loop stores at most as many entries as it has iterations. -/
theorem strtok_loop_length_le (n : Nat) (p : Option (List Char)) (saved : List Char) :
    (strtok_loop n p saved).length ≤ n := by
  induction n generalizing p saved with
  | zero => simp [strtok_loop]
  | succ n ih =>
    cases p with
    | none => simp [strtok_loop]
    | some q => simpa [strtok_loop] using ih _ _

/-- The index `i` never exceeds 255. -/
theorem data_ptrs_length_le (arg : List Char) : (data_ptrs arg).length ≤ 255 :=
  strtok_loop_length_le 255 _ _

/-- The write payload has at most 255 bytes. -/
theorem write_payload_length_le (t : Target) (arg : List Char) :
    (write_payload t arg).length ≤ 255 := by
  simpa [write_payload] using data_ptrs_length_le arg

/-- Storing at the position just after a prefix replaces the element there. -/
theorem set_after_prefix (pre : List Nat) (x v : Nat) (zs : List Nat) :
    (pre ++ x :: zs).set pre.length v = pre ++ v :: zs := by
  induction pre with
  | nil => rfl
  | cons a pre ih => simp [ih]

/-- The fill loop writes the parsed bytes one after the other and leaves the rest of
the buffer untouched. -/
theorem fill_loop_eq (t : Target) (ps : List (List Char)) (pre : List Nat) (k : Nat) :
    fill_loop t ps pre.length (pre ++ List.replicate (ps.length + k) 0)
      = pre ++ ps.map (fun p => to_uint8 (strtol t p)) ++ List.replicate k 0 := by
  induction ps generalizing pre with
  | nil => simp [fill_loop]
  | cons p ps ih =>
    have h1 : List.replicate ((p :: ps).length + k) 0
        = (0 : Nat) :: List.replicate (ps.length + k) 0 := by
      rw [List.length_cons, Nat.add_right_comm, List.replicate_succ]
    rw [fill_loop, h1, set_after_prefix]
    have h2 := ih (pre ++ [to_uint8 (strtol t p)])
    simp only [List.length_append, List.length_singleton, List.append_assoc,
      List.singleton_append] at h2
    simp only [h2, List.map_cons, List.append_assoc, List.cons_append, List.nil_append]

/-- The buffer after the fill loop: the payload, then `k` untouched zero bytes. -/
theorem fill_loop_calloc (t : Target) (arg : List Char) (k : Nat) :
    fill_loop t (data_ptrs arg) 0 (List.replicate ((data_ptrs arg).length + k) 0)
      = write_payload t arg ++ List.replicate k 0 := by
  simpa [write_payload] using fill_loop_eq t (data_ptrs arg) [] k

/-- With PEC disabled the builder fails when the allocation fails and otherwise
returns the payload as the buffer. -/
theorem w_args_to_xfer_pec_off (t : Target) (a : Nat) (x : i3c_ioc_priv_xfer)
    (arg : List Char) :
    w_args_to_xfer t a x arg 0
      = if t.calloc_ok (write_payload t arg).length then
          some (0, { x with len := to_len t (write_payload t arg).length,
                            data := write_payload t arg })
        else some (-1, x) := by
  have h := fill_loop_calloc t arg 0
  simp only [Nat.add_zero, List.replicate_zero, List.append_nil] at h
  have hl : (write_payload t arg).length = (data_ptrs arg).length := by simp [write_payload]
  simp only [w_args_to_xfer, ne_eq, not_true_eq_false, if_false, h, hl]

/-- A sequence of at most 255 bytes followed by more bytes is folded up to its own
length. -/
theorem calc_crc8_prefix (A B : List Nat) (crc : Nat) (h : A.length ≤ 255) :
    calc_crc8 (A ++ B) A.length crc = some (crc8 crc A) := by
  unfold calc_crc8
  have : ((A.length : Int) % 256).toNat = A.length := by omega
  rw [this, calc_crc8_loop_append, calc_crc8_loop_eq_foldl]
  rfl

/-- With PEC enabled the builder fails when the allocation fails and otherwise
returns the payload followed by its PEC byte; it never leaves the buffer. -/
theorem w_args_to_xfer_pec_on (t : Target) (a : Nat) (x : i3c_ioc_priv_xfer)
    (arg : List Char) (pec_en : Int) (hpec : pec_en ≠ 0) :
    w_args_to_xfer t a x arg pec_en
      = if t.calloc_ok ((write_payload t arg).length + 1) then
          some (0, { x with len := to_len t ((write_payload t arg).length + 1),
                            data := write_payload t arg
                              ++ [pec_byte (a * 2 % 2 ^ 32 % 256) (write_payload t arg)] })
        else some (-1, x) := by
  have h := fill_loop_calloc t arg 1
  have hl : (write_payload t arg).length = (data_ptrs arg).length := by simp [write_payload]
  have hle := write_payload_length_le t arg
  simp only [w_args_to_xfer, ne_eq, hpec, not_false_eq_true, if_true, h]
  simp only [← hl]
  generalize a * 2 % 4294967296 % 256 = fb
  split
  · generalize write_payload t arg = P at hle ⊢
    have h1 : calc_crc8 [fb] 1 0 = some (crc8 0 [fb]) := calc_crc8_eq_foldl [fb] 0 (by simp)
    cases P with
    | nil =>
      have h2 : ∀ c, calc_crc8 [0] 0 c = some c := fun c => rfl
      simp [h1, h2, pec_byte, crc8]
    | cons b P =>
      have h2 : ∀ c, calc_crc8 (b :: (P ++ [0])) ((P.length : Int) + 1) c
          = some (crc8 c (b :: P)) := by
        intro c
        simpa using calc_crc8_prefix (b :: P) [0] c hle
      have h3 : calc_crc8 (P ++ [0]) (P.length : Int) 0 = some (crc8 0 P) :=
        calc_crc8_prefix P [0] 0 (by simp at hle; omega)
      by_cases hb : 255 = b
      · subst hb
        simp [h3, pec_byte]
      · simp [h1, h2, hb, pec_byte]
  · rfl

/-- A count below `2 ^ len_bits` is stored unchanged in the `len` field. -/
theorem to_len_of_lt (t : Target) (n : Nat) (h : n < 2 ^ t.len_bits) :
    to_len t (n : Int) = n := by
  unfold to_len
  have h' : (n : Int) < 2 ^ t.len_bits := by exact_mod_cast h
  rw [Int.emod_eq_of_lt (by omega) h']
  simp

/-- A field of at least 9 bits holds every count up to 256. -/
theorem to_len_small (t : Target) (n : Nat) (hw : 9 ≤ t.len_bits) (h : n ≤ 256) :
    to_len t (n : Int) = n := by
  apply to_len_of_lt
  calc n < 2 ^ 9 := by omega
    _ ≤ 2 ^ t.len_bits := Nat.pow_le_pow_right (by decide) hw

/-- The address byte `dev_dyn_addr << 1` as a `uint8_t`. -/
theorem first_byte_eq (a : Nat) : a * 2 % 2 ^ 32 % 256 = a * 2 % 256 := by omega

/-! ### PEC policy -/

/-- C3: direct-transfer PEC. For every write argument whose parsed payload `P` has
at least one byte and does not start with 0xFF, and every dynamic address `a`,
`w_args_to_xfer` with PEC enabled returns success with buffer `P ++ [c]` and length
`|P| + 1`, where `c = calc_crc8(P, calc_crc8([(a << 1) as a byte], 0))`, which is the
seed-0 CRC8 of the on-wire bytes `[(a << 1)] ++ P`. (The allocation is assumed to
succeed and the `len` field to be at least 9 bits wide.) -/
theorem direct_transfer_pec (t : Target) (a : Nat) (x : i3c_ioc_priv_xfer) (arg : List Char)
    (pec_en : Int) (P : List Nat) (hpec : pec_en ≠ 0) (hP : write_payload t arg = P)
    (hne : 1 ≤ P.length) (hfirst : P.head? ≠ some 0xFF) (hw : 9 ≤ t.len_bits)
    (hal : t.calloc_ok (P.length + 1) = true) :
    ∃ seed c, calc_crc8 [a * 2 % 256] 1 0 = some seed
      ∧ calc_crc8 P P.length seed = some c
      ∧ c = crc8 0 (a * 2 % 256 :: P)
      ∧ w_args_to_xfer t a x arg pec_en
          = some (0, { x with len := P.length + 1, data := P ++ [c] }) := by
  have hle : P.length ≤ 255 := hP ▸ write_payload_length_le t arg
  refine ⟨crc8 0 [a * 2 % 256], crc8 (crc8 0 [a * 2 % 256]) P, ?_, ?_, rfl, ?_⟩
  · exact calc_crc8_eq_foldl [a * 2 % 256] 0 (by simp)
  · exact calc_crc8_eq_foldl P _ (by omega)
  · have hpb : pec_byte (a * 2 % 256) P = crc8 (crc8 0 [a * 2 % 256]) P := by
      cases P with
      | nil => simp at hne
      | cons b P =>
        have : ¬ 255 = b := by
          intro hb
          exact hfirst (by simp [← hb])
        simp [pec_byte, this]
    have hlen : to_len t ((P.length + 1 : Nat) : Int) = P.length + 1 :=
      to_len_small t _ hw (by omega)
    rw [w_args_to_xfer_pec_on t a x arg pec_en hpec, hP, if_pos hal, first_byte_eq, hpb]
    simp only [Nat.cast_add, Nat.cast_one] at hlen
    rw [hlen]

/-- C3 at `P = [0x10]`, `a = 0x70`: the address byte is 0xE0, the buffer is
`[0x10, 0x33]` and the length is 2. -/
theorem direct_transfer_pec_witness :
    ((1 : Int) ≠ 0 ∧ write_payload lp64 (cstr "0x10") = [0x10]
      ∧ 1 ≤ ([0x10] : List Nat).length ∧ ([0x10] : List Nat).head? ≠ some 0xFF
      ∧ 9 ≤ lp64.len_bits ∧ lp64.calloc_ok (([0x10] : List Nat).length + 1) = true)
    ∧ (∃ seed c, calc_crc8 [0x70 * 2 % 256] 1 0 = some seed
      ∧ calc_crc8 [0x10] ([0x10] : List Nat).length seed = some c
      ∧ c = crc8 0 (0x70 * 2 % 256 :: [0x10])
      ∧ w_args_to_xfer lp64 0x70 xfer_zero (cstr "0x10") 1
          = some (0, { xfer_zero with len := ([0x10] : List Nat).length + 1,
                                      data := [0x10] ++ [c] }))
    ∧ 0x70 * 2 % 256 = 0xE0
    ∧ w_args_to_xfer lp64 0x70 xfer_zero (cstr "0x10") 1 = some (0, ⟨[0x10, 0x33], 2, 0⟩) :=
  ⟨by decide!,
   direct_transfer_pec lp64 0x70 xfer_zero (cstr "0x10") 1 [0x10] (by decide) (by decide!)
     (by decide) (by decide) (by decide) (by decide),
   by decide, by decide!⟩

/-- C4: CCC-broadcast PEC. For every write argument whose parsed payload `P` starts
with 0xFF, `w_args_to_xfer` with PEC enabled returns, for every dynamic address,
success with buffer `P ++ [c]` and length `|P| + 1`, where `c` is
`calc_crc8(P without its first byte, 0)`; for `P = [0xFF]` alone `c = 0`. (The
allocation is assumed to succeed and the `len` field to be at least 9 bits wide.) -/
theorem ccc_broadcast_pec (t : Target) (x : i3c_ioc_priv_xfer) (arg : List Char)
    (pec_en : Int) (P : List Nat) (hpec : pec_en ≠ 0) (hP : write_payload t arg = P)
    (hfirst : P.head? = some 0xFF) (hw : 9 ≤ t.len_bits)
    (hal : t.calloc_ok (P.length + 1) = true) :
    ∃ c, calc_crc8 P.tail ((P.length : Int) - 1) 0 = some c
      ∧ (P = [0xFF] → c = 0)
      ∧ ∀ a, w_args_to_xfer t a x arg pec_en
          = some (0, { x with len := P.length + 1, data := P ++ [c] }) := by
  have hle : P.length ≤ 255 := hP ▸ write_payload_length_le t arg
  cases P with
  | nil => simp at hfirst
  | cons b P =>
    have hb : b = 255 := by simpa using hfirst
    subst hb
    refine ⟨crc8 0 P, ?_, ?_, ?_⟩
    · have := calc_crc8_eq_foldl P 0 (by simp at hle; omega)
      simpa [crc8] using this
    · intro h
      have : P = [] := by simpa using h
      subst this
      rfl
    · intro a
      have hlen : to_len t (((255 :: P).length + 1 : Nat) : Int) = (255 :: P).length + 1 :=
        to_len_small t _ hw (by omega)
      rw [w_args_to_xfer_pec_on t a x arg pec_en hpec, hP, if_pos hal]
      simp only [Nat.cast_add, Nat.cast_one] at hlen
      rw [hlen]
      simp [pec_byte]

/-- C4 at `P = [0xFF, 0x80]`: the buffer is `[0xFF, 0x80, 0x89]` and the length is 3,
for the addresses 0x70 and 0x08 alike. -/
theorem ccc_broadcast_pec_witness :
    ((1 : Int) ≠ 0 ∧ write_payload lp64 (cstr "0xFF,0x80") = [0xFF, 0x80]
      ∧ ([0xFF, 0x80] : List Nat).head? = some 0xFF
      ∧ 9 ≤ lp64.len_bits ∧ lp64.calloc_ok (([0xFF, 0x80] : List Nat).length + 1) = true)
    ∧ (∃ c, calc_crc8 ([0xFF, 0x80] : List Nat).tail
          ((([0xFF, 0x80] : List Nat).length : Int) - 1) 0 = some c
      ∧ (([0xFF, 0x80] : List Nat) = [0xFF] → c = 0)
      ∧ ∀ a, w_args_to_xfer lp64 a xfer_zero (cstr "0xFF,0x80") 1
          = some (0, { xfer_zero with len := ([0xFF, 0x80] : List Nat).length + 1,
                                      data := [0xFF, 0x80] ++ [c] }))
    ∧ w_args_to_xfer lp64 0x70 xfer_zero (cstr "0xFF,0x80") 1
        = some (0, ⟨[0xFF, 0x80, 0x89], 3, 0⟩)
    ∧ w_args_to_xfer lp64 0x08 xfer_zero (cstr "0xFF,0x80") 1
        = some (0, ⟨[0xFF, 0x80, 0x89], 3, 0⟩) :=
  ⟨by decide!,
   ccc_broadcast_pec lp64 xfer_zero (cstr "0xFF,0x80") 1 [0xFF, 0x80] (by decide) (by decide!)
     (by decide) (by decide) (by decide),
   by decide!, by decide!⟩

/-! ### Arguments the builders accept -/

/-- C8 as stated fails: an empty write argument, or one made of commas only, parses to
zero bytes, and with PEC enabled `w_args_to_xfer` returns 0 (success) with a one-byte
descriptor holding the CRC8 of the address byte 0xE0. -/
theorem empty_write_with_pec_is_built :
    write_payload lp64 (cstr "") = [] ∧ write_payload lp64 (cstr ",,") = []
    ∧ w_args_to_xfer lp64 0x70 xfer_zero (cstr "") 1 = some (0, ⟨[0xAE], 1, 0⟩)
    ∧ w_args_to_xfer lp64 0x70 xfer_zero (cstr ",,") 1 = some (0, ⟨[0xAE], 1, 0⟩) := by
  decide!

/-- C8, amended: a zero-length write with PEC enabled is not rejected. For every write
argument that parses to zero bytes, `w_args_to_xfer` with PEC enabled returns success
when its one-byte allocation succeeds, with length 1 and a buffer holding the PEC of
the empty direct transfer, `crc8_lookup[(dev_dyn_addr << 1) as a byte]`. -/
theorem zero_length_write_with_pec (t : Target) (a : Nat) (x : i3c_ioc_priv_xfer)
    (arg : List Char) (pec_en : Int) (hpec : pec_en ≠ 0) (hP : write_payload t arg = [])
    (hw : 1 ≤ t.len_bits) (hal : t.calloc_ok 1 = true) :
    w_args_to_xfer t a x arg pec_en
      = some (0, { x with len := 1, data := [crc8_at (a * 2 % 256)] }) := by
  have hlen : to_len t ((1 : Nat) : Int) = 1 :=
    to_len_of_lt t 1 (Nat.one_lt_two_pow (by omega))
  rw [w_args_to_xfer_pec_on t a x arg pec_en hpec, hP]
  simp only [List.length_nil, Nat.zero_add, hal, if_true, first_byte_eq, List.nil_append]
  simp only [Nat.cast_one] at hlen
  simp [pec_byte, crc8, hlen]

/-- C8, amended, at the empty argument with address 0x70. -/
theorem zero_length_write_with_pec_witness :
    ((1 : Int) ≠ 0 ∧ write_payload lp64 (cstr "") = [] ∧ 1 ≤ lp64.len_bits
      ∧ lp64.calloc_ok 1 = true)
    ∧ w_args_to_xfer lp64 0x70 xfer_zero (cstr "") 1
      = some (0, { xfer_zero with len := 1, data := [crc8_at (0x70 * 2 % 256)] }) :=
  ⟨by decide!,
   zero_length_write_with_pec lp64 0x70 xfer_zero (cstr "") 1 (by decide) (by decide!)
     (by decide) (by decide)⟩

/-- C9 as stated fails: `4x` and `zz` are not well-formed integer tokens, yet
`rx_args_to_xfer` builds a 4-byte read from `4x` (a partially parsed value) and
`w_args_to_xfer` builds the payload `[1, 0]` from `1,zz` (a defaulted value); both
return 0. -/
theorem malformed_arguments_are_built :
    int_token (cstr "4x") = false
    ∧ rx_args_to_xfer lp64 (cstr "4x") xfer_zero (cstr "4x") = (0, ⟨[0, 0, 0, 0], 4, 1⟩)
    ∧ int_token (cstr "zz") = false
    ∧ w_args_to_xfer lp64 0x70 xfer_zero (cstr "1,zz") 0 = some (0, ⟨[1, 0], 2, 0⟩) := by
  decide!

/-- C9, amended: malformed arguments do not fail the build. Whatever the argument
text, each builder takes what `strtol` returns for it and returns failure exactly
when its `calloc` fails: `rx_args_to_xfer` returns a non-zero value if and only if the
allocation of the converted length fails, and `w_args_to_xfer` either builds a
descriptor or returns -1 leaving the descriptor untouched, the latter if and only if
the allocation of the payload (plus one byte with PEC enabled) fails. -/
theorem build_fails_only_when_calloc_fails (t : Target) (a : Nat) (x : i3c_ioc_priv_xfer)
    (optarg arg : List Char) (pec_en : Int) :
    ((rx_args_to_xfer t optarg x arg).1 ≠ 0
        ↔ t.calloc_ok (to_size_t t (to_int (strtol t optarg))) = false)
    ∧ ((∃ d, w_args_to_xfer t a x arg pec_en = some (0, d))
        ∨ w_args_to_xfer t a x arg pec_en = some (-1, x))
    ∧ (w_args_to_xfer t a x arg pec_en = some (-1, x)
        ↔ t.calloc_ok ((write_payload t arg).length + if pec_en ≠ 0 then 1 else 0) = false) := by
  refine ⟨?_, ?_, ?_⟩
  · cases hc : t.calloc_ok (to_size_t t (to_int (strtol t optarg))) <;>
      simp [rx_args_to_xfer, hc]
  · by_cases hpec : pec_en = 0
    · subst hpec
      rw [w_args_to_xfer_pec_off]
      cases hc : t.calloc_ok (write_payload t arg).length <;> simp
    · rw [w_args_to_xfer_pec_on t a x arg pec_en hpec]
      cases hc : t.calloc_ok ((write_payload t arg).length + 1) <;> simp
  · by_cases hpec : pec_en = 0
    · subst hpec
      rw [w_args_to_xfer_pec_off]
      cases hc : t.calloc_ok (write_payload t arg).length <;> simp [hc]
    · rw [w_args_to_xfer_pec_on t a x arg pec_en hpec]
      simp only [ne_eq, hpec, not_false_eq_true, if_true]
      cases hc : t.calloc_ok ((write_payload t arg).length + 1) <;> simp [hc]

/-! ### Tokenising a comma-separated list -/

/-- At the end of the text `strtok` returns NULL. -/
theorem strtok_nil : strtok [] [','] = (none, []) := rfl

/-- A non-empty comma-free token followed by the end of the text or by a comma is
what `strtok` returns, and the scan resumes after that comma. -/
theorem strtok_token (s tl : List Char) (hs : s ≠ []) (hc : ',' ∉ s)
    (htl : tl = [] ∨ ∃ r, tl = ',' :: r) :
    strtok (s ++ tl) [','] = (some s, tl.drop 1) := by
  have hq : ∀ c ∈ s, (!([','] : List Char).contains c) = true := by
    intro c hcs
    have : c ≠ ',' := fun h => hc (h ▸ hcs)
    simp [this]
  have htake : tl.takeWhile (fun c => !([','] : List Char).contains c) = [] := by
    rcases htl with h | ⟨r, h⟩ <;> subst h <;> simp
  have hdrop : tl.dropWhile (fun c => !([','] : List Char).contains c) = tl := by
    rcases htl with h | ⟨r, h⟩ <;> subst h <;> simp
  cases s with
  | nil => exact absurd rfl hs
  | cons c r =>
    have hc0 : ¬ (([','] : List Char).contains c = true) := by
      have := hq c (List.mem_cons_self c r)
      simpa using this
    have h1 : (c :: r ++ tl).dropWhile (fun c => ([','] : List Char).contains c)
        = c :: (r ++ tl) := by
      rw [List.cons_append, List.dropWhile_cons_of_neg hc0]
    have h2 : (c :: (r ++ tl)).takeWhile (fun c => !([','] : List Char).contains c)
        = c :: r := by
      rw [← List.cons_append, List.takeWhile_append_of_pos hq, htake, List.append_nil]
    have h3 : (c :: (r ++ tl)).dropWhile (fun c => !([','] : List Char).contains c)
        = tl := by
      rw [← List.cons_append, List.dropWhile_append_of_pos hq, hdrop]
    unfold strtok
    rw [h1]
    simp only [h2, h3]

/-- A joined list starts with its first token; what follows is empty or starts with
the separating comma, and the rest of the list is joined after that comma. -/
theorem comma_join_cons (s : List Char) (rest : List (List Char)) :
    ∃ tl, comma_join (s :: rest) = s ++ tl ∧ (tl = [] ∨ ∃ r, tl = ',' :: r)
      ∧ tl.drop 1 = comma_join rest := by
  cases rest with
  | nil => exact ⟨[], by simp [comma_join], Or.inl rfl, rfl⟩
  | cons s' rest =>
    exact ⟨',' :: comma_join (s' :: rest), by simp [comma_join], Or.inr ⟨_, rfl⟩, rfl⟩

/-- On a joined list of non-empty comma-free tokens the first `strtok` call returns
the first token and leaves the joined rest. -/
theorem strtok_comma_join (s : List Char) (rest : List (List Char)) (hs : s ≠ [])
    (hc : ',' ∉ s) :
    strtok (comma_join (s :: rest)) [','] = (some s, comma_join rest) := by
  obtain ⟨tl, h1, h2, h3⟩ := comma_join_cons s rest
  rw [h1, strtok_token s tl hs hc h2, h3]

/-- The tokenising loop on a joined list of non-empty comma-free tokens stores the
tokens in order, as many as it has iterations. -/
theorem strtok_loop_comma_join (toks : List (List Char))
    (htok : ∀ s ∈ toks, s ≠ [] ∧ ',' ∉ s) (n : Nat) :
    strtok_loop n (strtok (comma_join toks) [',']).1 (strtok (comma_join toks) [',']).2
      = toks.take n := by
  induction toks generalizing n with
  | nil => cases n <;> simp [comma_join, strtok_nil, strtok_loop]
  | cons s rest ih =>
    have hs := htok s (List.mem_cons_self s rest)
    rw [strtok_comma_join s rest hs.1 hs.2]
    cases n with
    | zero => simp [strtok_loop]
    | succ n =>
      have := ih (fun s' h => htok s' (List.mem_cons_of_mem s h)) n
      simp only [strtok_loop, List.take_succ_cons, this]

/-- The entries of `data_ptrs` for a joined list are its first 255 tokens. -/
theorem data_ptrs_comma_join (toks : List (List Char))
    (htok : ∀ s ∈ toks, s ≠ [] ∧ ',' ∉ s) :
    data_ptrs (comma_join toks) = toks.take 255 :=
  strtok_loop_comma_join toks htok 255

/-- The payload parsed from a joined list: the converted first 255 tokens. -/
theorem write_payload_comma_join (t : Target) (toks : List (List Char))
    (htok : ∀ s ∈ toks, s ≠ [] ∧ ',' ∉ s) :
    write_payload t (comma_join toks)
      = (toks.take 255).map (fun s => to_uint8 (strtol t s)) := by
  rw [write_payload, data_ptrs_comma_join toks htok]

/-- C6: write-list cap. For every list of `n` non-empty comma-free tokens joined by
commas, `w_args_to_xfer` returns success with a buffer whose first `min n 255` bytes
are the converted values of the first `min n 255` tokens in order; the parsed payload
is exactly these bytes; the final length is `min n 255` with PEC disabled and
`min n 255 + 1` with PEC enabled, and it is the size of the buffer. (The allocation is
assumed to succeed and the `len` field to be at least 9 bits wide.) -/
theorem write_list_cap (t : Target) (a : Nat) (x : i3c_ioc_priv_xfer)
    (toks : List (List Char)) (pec_en : Int)
    (htok : ∀ s ∈ toks, s ≠ [] ∧ ',' ∉ s) (hw : 9 ≤ t.len_bits)
    (hal : t.calloc_ok (min toks.length 255 + if pec_en ≠ 0 then 1 else 0) = true) :
    ∃ d, w_args_to_xfer t a x (comma_join toks) pec_en = some (0, d)
      ∧ write_payload t (comma_join toks)
          = (toks.take 255).map (fun s => to_uint8 (strtol t s))
      ∧ (write_payload t (comma_join toks)).length = min toks.length 255
      ∧ d.data.take (min toks.length 255)
          = (toks.take 255).map (fun s => to_uint8 (strtol t s))
      ∧ d.len = min toks.length 255 + (if pec_en ≠ 0 then 1 else 0)
      ∧ d.data.length = d.len := by
  have hP := write_payload_comma_join t toks htok
  have hPl : (write_payload t (comma_join toks)).length = min toks.length 255 := by
    rw [hP, List.length_map, List.length_take, Nat.min_comm]
  by_cases hpec : pec_en = 0
  · subst hpec
    simp only [ne_eq, not_true_eq_false, if_false, Nat.add_zero] at hal ⊢
    rw [w_args_to_xfer_pec_off, hPl, if_pos hal, to_len_small t _ hw (by omega)]
    refine ⟨_, rfl, hP, rfl, ?_, rfl, hPl⟩
    show (write_payload t (comma_join toks)).take (min toks.length 255) = _
    rw [← hPl, List.take_length, hP]
  · simp only [ne_eq, hpec, not_false_eq_true, if_true] at hal ⊢
    have hlen : to_len t ((min toks.length 255 + 1 : Nat) : Int) = min toks.length 255 + 1 :=
      to_len_small t _ hw (by omega)
    simp only [Nat.cast_add, Nat.cast_one] at hlen
    rw [w_args_to_xfer_pec_on t a x _ pec_en hpec, hPl, if_pos hal, hlen]
    refine ⟨_, rfl, hP, rfl, ?_, rfl, ?_⟩
    · show (write_payload t (comma_join toks) ++ _).take (min toks.length 255) = _
      rw [← hPl, List.take_left, hP]
    · show (write_payload t (comma_join toks) ++ _).length = _
      rw [List.length_append, hPl, List.length_singleton]

set_option maxRecDepth 100000 in
/-- C6 on a list of 300 tokens `7` with PEC enabled: the payload is 255 bytes 7 and
the final length is 256. -/
theorem write_list_cap_witness :
    ((∀ s ∈ List.replicate 300 (cstr "7"), s ≠ [] ∧ ',' ∉ s) ∧ 9 ≤ lp64.len_bits
      ∧ lp64.calloc_ok (min (List.replicate 300 (cstr "7")).length 255
          + if (1 : Int) ≠ 0 then 1 else 0) = true)
    ∧ ∃ d, w_args_to_xfer lp64 0x70 xfer_zero (comma_join (List.replicate 300 (cstr "7"))) 1
          = some (0, d)
      ∧ write_payload lp64 (comma_join (List.replicate 300 (cstr "7")))
          = ((List.replicate 300 (cstr "7")).take 255).map (fun s => to_uint8 (strtol lp64 s))
      ∧ (write_payload lp64 (comma_join (List.replicate 300 (cstr "7")))).length
          = min (List.replicate 300 (cstr "7")).length 255
      ∧ d.data.take (min (List.replicate 300 (cstr "7")).length 255)
          = ((List.replicate 300 (cstr "7")).take 255).map (fun s => to_uint8 (strtol lp64 s))
      ∧ d.len = min (List.replicate 300 (cstr "7")).length 255
          + (if (1 : Int) ≠ 0 then 1 else 0)
      ∧ d.data.length = d.len :=
  ⟨by decide!,
   write_list_cap lp64 0x70 xfer_zero (List.replicate 300 (cstr "7")) 1 (by decide!)
     (by decide) (by decide!)⟩

/-! ### `strtol` on well-formed integer tokens -/

/-- The order on characters is the order on their codes. -/
theorem char_le_toNat (c d : Char) (h : c ≤ d) : c.toNat ≤ d.toNat := h

/-- A property checked on the 128 ASCII codes holds of every ASCII character. -/
theorem ascii_forall (p : Char → Bool) (h : ∀ n, n < 128 → p (Char.ofNat n) = true)
    (c : Char) (hc : c.toNat < 128) : p c = true := by
  have := h c.toNat hc
  rwa [Char.ofNat_toNat] at this

/-- Hexadecimal digits are ASCII. -/
theorem xdigit_ascii (c : Char) (h : is_xdigit c = true) : c.toNat < 128 := by
  unfold is_xdigit at h
  simp only [decide_eq_true_eq] at h
  rcases h with h | h | h
  · have := char_le_toNat _ _ h.2
    have e : ('9' : Char).toNat = 57 := rfl
    omega
  · have := char_le_toNat _ _ h.2
    have e : ('f' : Char).toNat = 102 := rfl
    omega
  · have := char_le_toNat _ _ h.2
    have e : ('F' : Char).toNat = 70 := rfl
    omega

/-- What `strtol` and `strtok` see in a hexadecimal digit, checked code by code. -/
theorem xdigit_table : ∀ n, n < 128 →
    (!is_xdigit (Char.ofNat n) ||
      (decide (base_digit 16 (Char.ofNat n) = some ((digit_value (Char.ofNat n)).getD 0))
        && decide (Char.ofNat n ≠ ',') && !isspace (Char.ofNat n)
        && decide (Char.ofNat n ≠ '-') && decide (Char.ofNat n ≠ '+'))) = true := by
  decide!

/-- What `strtol` sees in a decimal digit, checked code by code. -/
theorem digit_table : ∀ n, n < 128 →
    (!is_digit (Char.ofNat n) ||
      (is_xdigit (Char.ofNat n)
        && decide (base_digit 10 (Char.ofNat n) = some ((digit_value (Char.ofNat n)).getD 0))))
      = true := by
  decide!

/-- Decimal digits are ASCII. -/
theorem digit_ascii (c : Char) (h : is_digit c = true) : c.toNat < 128 := by
  unfold is_digit at h
  simp only [decide_eq_true_eq] at h
  have := char_le_toNat _ _ h.2
  have e : ('9' : Char).toNat = 57 := rfl
  omega

/-- A hexadecimal digit is a digit of base 16, and is neither a comma, white space
nor a sign. -/
theorem xdigit_facts (c : Char) (h : is_xdigit c = true) :
    base_digit 16 c = some ((digit_value c).getD 0) ∧ c ≠ ',' ∧ isspace c = false
      ∧ c ≠ '-' ∧ c ≠ '+' := by
  have := ascii_forall
    (fun c => !is_xdigit c ||
      (decide (base_digit 16 c = some ((digit_value c).getD 0))
        && decide (c ≠ ',') && !isspace c && decide (c ≠ '-') && decide (c ≠ '+')))
    xdigit_table c (xdigit_ascii c h)
  simpa [h, and_assoc] using this

/-- A decimal digit is a hexadecimal digit and a digit of base 10. -/
theorem digit_facts (c : Char) (h : is_digit c = true) :
    is_xdigit c = true ∧ base_digit 10 c = some ((digit_value c).getD 0) := by
  have := ascii_forall
    (fun c => !is_digit c ||
      (is_xdigit c && decide (base_digit 10 c = some ((digit_value c).getD 0))))
    digit_table c (digit_ascii c h)
  simpa [h] using this

/-- On a run of digits of the base, `strtol` reads the whole run. -/
theorem strtol_digits_all (b : Nat) (s : List Char) (acc : Nat)
    (h : ∀ c ∈ s, base_digit b c = some ((digit_value c).getD 0)) :
    strtol_digits b s acc = s.foldl (fun acc c => acc * b + (digit_value c).getD 0) acc := by
  induction s generalizing acc with
  | nil => rfl
  | cons c s ih =>
    have hc := h c (List.mem_cons_self c s)
    simp only [strtol_digits, hc, List.foldl_cons]
    exact ih _ (fun d hd => h d (List.mem_cons_of_mem c hd))

/-- The shape of a decimal token. -/
theorem decimal_token_cases (s : List Char) (h : decimal_token s = true) :
    s = ['0'] ∨ ∃ c r, s = c :: r ∧ c ≠ '0' ∧ ∀ d ∈ c :: r, is_digit d = true := by
  unfold decimal_token at h
  split at h
  · exact absurd h (by simp)
  · exact Or.inl rfl
  · rename_i c r _
    right
    refine ⟨c, r, rfl, ?_, ?_⟩
    · have := (Bool.and_eq_true _ _ ▸ h).1
      simpa using this
    · have := (Bool.and_eq_true _ _ ▸ h).2
      simpa [List.all_eq_true] using this

/-- The shape of a hexadecimal token. -/
theorem hex_token_cases (s : List Char) (h : hex_token s = true) :
    ∃ x c r, s = '0' :: x :: c :: r ∧ (x = 'x' ∨ x = 'X')
      ∧ ∀ d ∈ c :: r, is_xdigit d = true := by
  unfold hex_token at h
  split at h
  · rename_i x c r
    refine ⟨x, c, r, rfl, ?_, ?_⟩
    · have := (Bool.and_eq_true _ _ ▸ h).1
      simpa using this
    · have := (Bool.and_eq_true _ _ ▸ h).2
      simpa [List.all_eq_true] using this
  · exact absurd h (by simp)

/-- Without a sign in front, `strtol` reads the digits of the chosen base. -/
theorem strtol_signed_unsigned (c : Char) (r : List Char) (h1 : c ≠ '-') (h2 : c ≠ '+') :
    strtol_signed (c :: r)
      = ((strtol_digits (strtol_base (c :: r)).1 (strtol_base (c :: r)).2 0 : Nat) : Int) := by
  unfold strtol_signed
  split
  · rename_i heq
    exact absurd (List.cons.inj heq).1 h1
  · rename_i heq
    exact absurd (List.cons.inj heq).1 h2
  · rfl

/-- Text that does not start with `0` is read in base 10. -/
theorem strtol_base_decimal (c : Char) (r : List Char) (h : c ≠ '0') :
    strtol_base (c :: r) = (10, c :: r) := by
  unfold strtol_base
  split
  · rename_i heq
    exact absurd (List.cons.inj heq).1 h
  · rename_i heq
    exact absurd (List.cons.inj heq).1 h
  · rfl

/-- After `0x` or `0X` and a hexadecimal digit the text is read in base 16 from that
digit on. -/
theorem strtol_base_hex (x c : Char) (r : List Char) (hx : x = 'x' ∨ x = 'X')
    (hc : is_xdigit c = true) :
    strtol_base ('0' :: x :: c :: r) = (16, c :: r) := by
  have h16 : (base_digit 16 c).isSome = true := by rw [(xdigit_facts c hc).1]; rfl
  simp [strtol_base, hx, h16]

/-- On a well-formed integer token `strtol` reads the number the token denotes,
before the limitation to the range of `long`; such a token is neither empty nor
contains a comma. -/
theorem strtol_signed_int_token (s : List Char) (h : int_token s = true) :
    strtol_signed (s.dropWhile isspace) = (token_value s : Int) ∧ s ≠ [] ∧ ',' ∉ s := by
  cases hh : hex_token s with
  | true =>
    obtain ⟨x, c, r, hs, hx, hall⟩ := hex_token_cases s hh
    subst hs
    have hc := hall c (List.mem_cons_self c r)
    have hd : ∀ d ∈ c :: r, base_digit 16 d = some ((digit_value d).getD 0) :=
      fun d hd => (xdigit_facts d (hall d hd)).1
    have hsp : ('0' :: x :: c :: r).dropWhile isspace = '0' :: x :: c :: r :=
      List.dropWhile_cons_of_neg (by decide)
    refine ⟨?_, by simp, ?_⟩
    · rw [hsp, strtol_signed_unsigned '0' _ (by decide) (by decide), strtol_base_hex x c r hx hc,
        strtol_digits_all 16 (c :: r) 0 hd]
      simp [token_value, hh, numeral_value]
    · intro hmem
      rcases List.mem_cons.1 hmem with h0 | hmem
      · exact absurd h0 (by decide)
      rcases List.mem_cons.1 hmem with h0 | hmem
      · rcases hx with hx | hx <;> subst hx <;> exact absurd h0 (by decide)
      · exact (xdigit_facts ',' (hall ',' hmem)).2.1 rfl
  | false =>
    have hdec : decimal_token s = true := by simpa [int_token, hh] using h
    rcases decimal_token_cases s hdec with hs | ⟨c, r, hs, hc0, hall⟩
    · subst hs
      refine ⟨by decide, by decide, by decide⟩
    · subst hs
      have hx : ∀ d ∈ c :: r, is_xdigit d = true := fun d hd => (digit_facts d (hall d hd)).1
      have hd : ∀ d ∈ c :: r, base_digit 10 d = some ((digit_value d).getD 0) :=
        fun d hd => (digit_facts d (hall d hd)).2
      have hcf := xdigit_facts c (hx c (List.mem_cons_self c r))
      have hsp : (c :: r).dropWhile isspace = c :: r :=
        List.dropWhile_cons_of_neg (by simp [hcf.2.2.1])
      refine ⟨?_, by simp, ?_⟩
      · rw [hsp, strtol_signed_unsigned c r hcf.2.2.2.1 hcf.2.2.2.2,
          strtol_base_decimal c r hc0, strtol_digits_all 10 (c :: r) 0 hd]
        simp [token_value, hh, numeral_value]
      · intro hmem
        exact (xdigit_facts ',' (hx ',' hmem)).2.1 rfl

/-- The largest `long` is not negative. -/
theorem LONG_MAX_nonneg (t : Target) : 0 ≤ LONG_MAX t := by
  unfold LONG_MAX
  have : (0 : Int) < 2 ^ (t.long_bits - 1) := by positivity
  omega

/-- On a well-formed integer token `strtol` returns the number the token denotes,
limited to `LONG_MAX`. -/
theorem strtol_int_token (t : Target) (s : List Char) (h : int_token s = true) :
    strtol t s = min (LONG_MAX t) (token_value s : Int) := by
  have h0 := LONG_MAX_nonneg t
  have h1 : LONG_MIN t ≤ 0 := by
    unfold LONG_MIN
    have : (0 : Int) < 2 ^ (t.long_bits - 1) := by positivity
    omega
  unfold strtol
  rw [(strtol_signed_int_token s h).1]
  omega

/-! ### Writes without PEC, reads, and the descriptor invariant -/

/-- C5: with PEC disabled, for every list of well-formed integer tokens (decimal or
`0x`-prefixed hexadecimal) joined by commas, whatever the first byte and whatever the
dynamic address, `w_args_to_xfer` returns success with a buffer that is exactly the
parsed bytes in list order, nothing appended, and a length equal to their number. The
byte parsed from a token is its value, limited to `LONG_MAX` by `strtol`, converted to
`uint8_t`; the list is cut at 255 tokens. (The allocation is assumed to succeed and
the `len` field to be at least 8 bits wide.) -/
theorem write_without_pec_is_verbatim (t : Target) (a : Nat) (x : i3c_ioc_priv_xfer)
    (toks : List (List Char)) (htok : ∀ s ∈ toks, int_token s = true)
    (hw : 8 ≤ t.len_bits) (hal : t.calloc_ok (min toks.length 255) = true) :
    w_args_to_xfer t a x (comma_join toks) 0
      = some (0, { x with
          len := min toks.length 255,
          data := (toks.take 255).map
            (fun s => to_uint8 (min (LONG_MAX t) (token_value s : Int))) }) := by
  have htok' : ∀ s ∈ toks, s ≠ [] ∧ ',' ∉ s :=
    fun s hs => (strtol_signed_int_token s (htok s hs)).2
  have hP : write_payload t (comma_join toks)
      = (toks.take 255).map (fun s => to_uint8 (min (LONG_MAX t) (token_value s : Int))) := by
    rw [write_payload_comma_join t toks htok']
    apply List.map_congr_left
    intro s hs
    rw [strtol_int_token t s (htok s (List.mem_of_mem_take hs))]
  have hPl : (write_payload t (comma_join toks)).length = min toks.length 255 := by
    rw [hP, List.length_map, List.length_take, Nat.min_comm]
  have hlen : to_len t ((min toks.length 255 : Nat) : Int) = min toks.length 255 := by
    apply to_len_of_lt
    calc min toks.length 255 < 2 ^ 8 := by omega
      _ ≤ 2 ^ t.len_bits := Nat.pow_le_pow_right (by decide) hw
  rw [w_args_to_xfer_pec_off, hPl, if_pos hal, hlen, hP]

/-- C5 on `0x01,0x02,0x03`: the buffer is `[1, 2, 3]` and the length is 3. -/
theorem write_without_pec_is_verbatim_witness :
    ((∀ s ∈ [cstr "0x01", cstr "0x02", cstr "0x03"], int_token s = true)
      ∧ 8 ≤ lp64.len_bits
      ∧ lp64.calloc_ok (min [cstr "0x01", cstr "0x02", cstr "0x03"].length 255) = true)
    ∧ w_args_to_xfer lp64 0x70 xfer_zero
        (comma_join [cstr "0x01", cstr "0x02", cstr "0x03"]) 0
      = some (0, { xfer_zero with
          len := min [cstr "0x01", cstr "0x02", cstr "0x03"].length 255,
          data := ([cstr "0x01", cstr "0x02", cstr "0x03"].take 255).map
            (fun s => to_uint8 (min (LONG_MAX lp64) (token_value s : Int))) })
    ∧ comma_join [cstr "0x01", cstr "0x02", cstr "0x03"] = cstr "0x01,0x02,0x03"
    ∧ w_args_to_xfer lp64 0x70 xfer_zero (cstr "0x01,0x02,0x03") 0
      = some (0, ⟨[1, 2, 3], 3, 0⟩) :=
  ⟨by decide!,
   write_without_pec_is_verbatim lp64 0x70 xfer_zero [cstr "0x01", cstr "0x02", cstr "0x03"]
     (by decide!) (by decide) (by decide),
   by decide!, by decide!⟩

/-- A length below `2 ^ 31` is unchanged by the conversion to `int`. -/
theorem to_int_of_lt (n : Nat) (h : n < 2 ^ 31) : to_int (n : Int) = n := by
  unfold to_int
  have h' : (n : Int) < 2 ^ 31 := by exact_mod_cast h
  omega

/-- A length below `2 ^ 31` is unchanged by the conversion to `size_t`. -/
theorem to_size_t_of_lt (t : Target) (n : Nat) (h : n < 2 ^ 31) (hl : 32 ≤ t.long_bits) :
    to_size_t t (n : Int) = n := by
  unfold to_size_t
  have h1 : (2 : Nat) ^ 31 ≤ 2 ^ t.long_bits := Nat.pow_le_pow_right (by decide) (by omega)
  have h' : (n : Int) < 2 ^ t.long_bits := by exact_mod_cast (Nat.lt_of_lt_of_le h h1)
  rw [Int.emod_eq_of_lt (by omega) h']
  simp

/-- C7 as stated fails. The length `4294967300` is a well-formed decimal token, the
allocation the code makes for it succeeds, but the length goes through an `int`, so the
descriptor has length 4 and a 4-byte buffer; and for `65536` the 16-bit `len` field
stores 0. -/
theorem read_length_is_truncated :
    int_token (cstr "4294967300") = true ∧ token_value (cstr "4294967300") = 4294967300
    ∧ lp64.calloc_ok 4 = true
    ∧ rx_args_to_xfer lp64 (cstr "4294967300") xfer_zero (cstr "4294967300")
        = (0, ⟨[0, 0, 0, 0], 4, 1⟩)
    ∧ token_value (cstr "65536") = 65536
    ∧ (rx_args_to_xfer lp64 (cstr "65536") xfer_zero (cstr "65536")).1 = 0
    ∧ (rx_args_to_xfer lp64 (cstr "65536") xfer_zero (cstr "65536")).2.len = 0 := by
  decide!

/-- C7, amended: build-read. For every requested length given as a well-formed decimal
or `0x`-prefixed hexadecimal token whose value `n` is below `2 ^ 31` (it is held in an
`int`) and below `2 ^ len_bits` (it is stored in the `len` field), and for which the
allocation succeeds, `rx_args_to_xfer` returns success with a descriptor whose
direction is Read (`rnw = 1`), whose length is `n` and whose buffer is `n` bytes, all
0. -/
theorem read_builds_zeroed_buffer (t : Target) (x : i3c_ioc_priv_xfer) (s : List Char)
    (n : Nat) (htok : int_token s = true) (hn : token_value s = n) (hint : n < 2 ^ 31)
    (hlen : n < 2 ^ t.len_bits) (hlong : 32 ≤ t.long_bits)
    (hal : t.calloc_ok n = true) :
    rx_args_to_xfer t s x s
      = (0, { x with rnw := 1, len := n, data := List.replicate n 0 }) := by
  have hmax : (n : Int) ≤ LONG_MAX t := by
    unfold LONG_MAX
    have h1 : (2 : Nat) ^ 31 ≤ 2 ^ (t.long_bits - 1) :=
      Nat.pow_le_pow_right (by decide) (by omega)
    have h2 : ((2 : Nat) ^ 31 : Int) ≤ ((2 : Nat) ^ (t.long_bits - 1) : Nat) := by
      exact_mod_cast h1
    have h3 : (n : Int) < ((2 : Nat) ^ 31 : Nat) := by exact_mod_cast hint
    push_cast at h2 h3
    omega
  have hs : strtol t s = n := by
    rw [strtol_int_token t s htok, hn]
    omega
  unfold rx_args_to_xfer
  simp only [hs, to_int_of_lt n hint, to_size_t_of_lt t n hint hlong, hal, if_true,
    to_len_of_lt t n hlen]

/-- C7, amended, at length 4: a Read descriptor with buffer `[0, 0, 0, 0]`. -/
theorem read_builds_zeroed_buffer_witness :
    (int_token (cstr "4") = true ∧ token_value (cstr "4") = 4 ∧ 4 < 2 ^ 31
      ∧ 4 < 2 ^ lp64.len_bits ∧ 32 ≤ lp64.long_bits ∧ lp64.calloc_ok 4 = true)
    ∧ rx_args_to_xfer lp64 (cstr "4") xfer_zero (cstr "4")
      = (0, { xfer_zero with rnw := 1, len := 4, data := List.replicate 4 0 })
    ∧ List.replicate 4 (0 : Nat) = [0, 0, 0, 0] :=
  ⟨by decide!,
   read_builds_zeroed_buffer lp64 xfer_zero (cstr "4") 4 (by decide!) (by decide!)
     (by decide) (by decide) (by decide) (by decide),
   by decide⟩

/-- Whatever the width of the `len` field below 31 bits, the read length `1073741824`
is built with a buffer of that many bytes and the length field 0: the mismatch does
not depend on the field being 16 bits wide, only on its being narrower than `int`. -/
theorem read_len_field_narrower_than_int (w : Nat) (hw : w ≤ 30) :
    ∃ d, rx_args_to_xfer ⟨64, w, fun _ => true⟩ (cstr "1073741824") xfer_zero
          (cstr "1073741824") = (0, d)
      ∧ d.data.length = 1073741824 ∧ d.len = 0 := by
  have hs : strtol ⟨64, w, fun _ => true⟩ (cstr "1073741824") = strtol lp64 (cstr "1073741824") :=
    rfl
  have hv : to_int (strtol lp64 (cstr "1073741824")) = ((1073741824 : Nat) : Int) := by decide!
  have hz : to_size_t ⟨64, w, fun _ => true⟩ ((1073741824 : Nat) : Int) = 1073741824 :=
    to_size_t_of_lt _ _ (by decide) (by show 32 ≤ 64; decide)
  have hl : to_len ⟨64, w, fun _ => true⟩ ((1073741824 : Nat) : Int) = 0 := by
    unfold to_len
    have hdvd : (2 : Int) ^ w ∣ 2 ^ 30 := pow_dvd_pow 2 hw
    have : ((1073741824 : Nat) : Int) = 2 ^ 30 := by norm_num
    rw [this, Int.emod_eq_zero_of_dvd hdvd]
    rfl
  refine ⟨⟨List.replicate 1073741824 0, 0, 1⟩, ?_, List.length_replicate _ _, rfl⟩
  unfold rx_args_to_xfer
  simp only [hs, hv, hz, hl, if_true]

/-- C10 as stated fails with a 16-bit `len` field: for the read length `65536` the
builder succeeds, the buffer has 65536 bytes and the length field holds 0. -/
theorem read_of_65536_bytes_has_len_zero :
    ∃ d, rx_args_to_xfer lp64 (cstr "65536") xfer_zero (cstr "65536") = (0, d)
      ∧ d.data.length = 65536 ∧ d.len = 0 := by
  have hs : to_size_t lp64 (to_int (strtol lp64 (cstr "65536"))) = 65536 := by decide!
  have hl : to_len lp64 (to_int (strtol lp64 (cstr "65536"))) = 0 := by decide!
  have hc : lp64.calloc_ok 65536 = true := rfl
  refine ⟨⟨List.replicate 65536 0, 0, 1⟩, ?_, ?_, rfl⟩
  · unfold rx_args_to_xfer
    simp only [hs, hl, hc, if_true]
  · exact List.length_replicate 65536 0

/-- C10, amended: descriptor invariant. Every descriptor that `w_args_to_xfer` builds
(any write list, PEC enabled or disabled) has as many bytes allocated as its length
field says, and so has every descriptor that `rx_args_to_xfer` builds provided the
number of bytes allocated is below `2 ^ len_bits`, that is, fits the length field.
(The `len` field is assumed to be at least 9 bits wide and not wider than
`size_t`.) -/
theorem descriptor_length_matches_buffer (t : Target) (d : i3c_ioc_priv_xfer)
    (hw : 9 ≤ t.len_bits) (hL : t.len_bits ≤ t.long_bits)
    (hbuilt :
      (∃ optarg x arg, rx_args_to_xfer t optarg x arg = (0, d)
          ∧ d.data.length < 2 ^ t.len_bits)
      ∨ (∃ a x arg pec_en, w_args_to_xfer t a x arg pec_en = some (0, d))) :
    d.data.length = d.len := by
  rcases hbuilt with ⟨optarg, x, arg, hrx, hfit⟩ | ⟨a, x, arg, pec_en, hwx⟩
  · unfold rx_args_to_xfer at hrx
    generalize to_int (strtol t optarg) = len at hrx
    cases hc : t.calloc_ok (to_size_t t len) with
    | false => simp [hc] at hrx
    | true =>
      simp only [hc, if_true, Prod.mk.injEq, true_and] at hrx
      subst hrx
      simp only [List.length_replicate] at hfit ⊢
      unfold to_size_t at hfit ⊢
      unfold to_len
      have hdvd : (2 : Int) ^ t.len_bits ∣ 2 ^ t.long_bits := pow_dvd_pow 2 hL
      have hpos : (0 : Int) < 2 ^ t.long_bits := by positivity
      have h0 : 0 ≤ len % 2 ^ t.long_bits := Int.emod_nonneg _ (ne_of_gt hpos)
      have h1 : len % 2 ^ t.long_bits < 2 ^ t.len_bits := by
        have : ((len % 2 ^ t.long_bits).toNat : Int) < ((2 ^ t.len_bits : Nat) : Int) := by
          exact_mod_cast hfit
        rw [Int.toNat_of_nonneg h0] at this
        exact_mod_cast this
      rw [← Int.emod_emod_of_dvd len hdvd, Int.emod_eq_of_lt h0 h1]
  · have hle := write_payload_length_le t arg
    by_cases hpec : pec_en = 0
    · subst hpec
      rw [w_args_to_xfer_pec_off] at hwx
      cases hc : t.calloc_ok (write_payload t arg).length with
      | false => simp [hc] at hwx
      | true =>
        simp only [hc, if_true, Option.some.injEq, Prod.mk.injEq, true_and] at hwx
        subst hwx
        exact (to_len_small t (write_payload t arg).length hw (by omega)).symm
    · rw [w_args_to_xfer_pec_on t a x arg pec_en hpec] at hwx
      cases hc : t.calloc_ok ((write_payload t arg).length + 1) with
      | false => simp [hc] at hwx
      | true =>
        simp only [hc, if_true, Option.some.injEq, Prod.mk.injEq, true_and] at hwx
        subst hwx
        have := to_len_small t ((write_payload t arg).length + 1) hw (by omega)
        simp only [Nat.cast_add, Nat.cast_one] at this
        simp [this]

/-- C10, amended, at the descriptor built for the read length 4. -/
theorem descriptor_length_matches_buffer_witness :
    (9 ≤ lp64.len_bits ∧ lp64.len_bits ≤ lp64.long_bits
      ∧ ((∃ optarg x arg, rx_args_to_xfer lp64 optarg x arg = (0, ⟨[0, 0, 0, 0], 4, 1⟩)
            ∧ (⟨[0, 0, 0, 0], 4, 1⟩ : i3c_ioc_priv_xfer).data.length < 2 ^ lp64.len_bits)
          ∨ (∃ a x arg pec_en,
              w_args_to_xfer lp64 a x arg pec_en = some (0, ⟨[0, 0, 0, 0], 4, 1⟩))))
    ∧ (⟨[0, 0, 0, 0], 4, 1⟩ : i3c_ioc_priv_xfer).data.length
        = (⟨[0, 0, 0, 0], 4, 1⟩ : i3c_ioc_priv_xfer).len :=
  ⟨⟨by decide, by decide, Or.inl ⟨cstr "4", xfer_zero, cstr "4", by decide!, by decide⟩⟩,
   descriptor_length_matches_buffer lp64 ⟨[0, 0, 0, 0], 4, 1⟩ (by decide) (by decide)
     (Or.inl ⟨cstr "4", xfer_zero, cstr "4", by decide!, by decide⟩)⟩

/-! ### The address byte -/

/-- The address byte of the model of `w_args_to_xfer` is `first_byte`. -/
theorem first_byte_def (a : Nat) : a * 2 % 2 ^ 32 % 256 = first_byte a := rfl

/-- The address byte is twice the low 7 bits of the address. -/
theorem first_byte_low7 (a : Nat) : first_byte a = a % 128 * 2 := by
  unfold first_byte
  omega

/-- The write builder depends on the address only through the address byte. -/
theorem w_args_to_xfer_congr (t : Target) (a a' : Nat) (x : i3c_ioc_priv_xfer)
    (arg : List Char) (pec_en : Int) (h : first_byte a = first_byte a') :
    w_args_to_xfer t a x arg pec_en = w_args_to_xfer t a' x arg pec_en := by
  by_cases hpec : pec_en = 0
  · subst hpec
    rw [w_args_to_xfer_pec_off, w_args_to_xfer_pec_off]
  · rw [w_args_to_xfer_pec_on t a x arg pec_en hpec, w_args_to_xfer_pec_on t a' x arg pec_en hpec,
      first_byte_def, first_byte_def, h]

/-- C16: the PEC depends only on the low 7 bits of the configured address. For every
write argument and all addresses `a` and `a'` with `a mod 128 = a' mod 128`,
`w_args_to_xfer` (with PEC enabled, and indeed with any PEC flag) returns the same
result, buffer and length included; the address byte `(dev_dyn_addr << 1)` truncated to
8 bits is the same for both and is always even. -/
theorem pec_depends_on_low7_address_bits (t : Target) (a a' : Nat) (x : i3c_ioc_priv_xfer)
    (arg : List Char) (pec_en : Int) (h : a % 128 = a' % 128) :
    w_args_to_xfer t a x arg pec_en = w_args_to_xfer t a' x arg pec_en
      ∧ first_byte a = first_byte a' ∧ first_byte a % 2 = 0 ∧ first_byte a < 256 := by
  have hfb : first_byte a = first_byte a' := by rw [first_byte_low7, first_byte_low7, h]
  refine ⟨w_args_to_xfer_congr t a a' x arg pec_en hfb, hfb, ?_, ?_⟩
  · rw [first_byte_low7]; omega
  · rw [first_byte_low7]; omega

/-- C16 at the addresses 0x70 and 0xF0 (= 0x70 + 128) with the payload `0x10`: both
give the buffer `[0x10, 0x33]`, length 2, and the address byte 0xE0. -/
theorem pec_depends_on_low7_address_bits_witness :
    0x70 % 128 = 0xF0 % 128
    ∧ (w_args_to_xfer lp64 0x70 xfer_zero (cstr "0x10") 1
          = w_args_to_xfer lp64 0xF0 xfer_zero (cstr "0x10") 1
        ∧ first_byte 0x70 = first_byte 0xF0 ∧ first_byte 0x70 % 2 = 0 ∧ first_byte 0x70 < 256)
    ∧ w_args_to_xfer lp64 0xF0 xfer_zero (cstr "0x10") 1 = some (0, ⟨[0x10, 0x33], 2, 0⟩)
    ∧ first_byte 0xF0 = 0xE0 :=
  ⟨by decide,
   pec_depends_on_low7_address_bits lp64 0x70 0xF0 xfer_zero (cstr "0x10") 1 (by decide),
   by decide!, by decide⟩

/-! ### The buffer at the CCC-marker check -/

/-- The buffer at the check is the payload followed by the one extra zero byte. -/
theorem tmp_at_pec_check_eq (t : Target) (arg : List Char) :
    tmp_at_pec_check t arg = write_payload t arg ++ [0] :=
  fill_loop_calloc t arg 1

/-- With PEC enabled and a successful allocation, the model of `w_args_to_xfer` reads
index 0 of `tmp_at_pec_check` and is undefined when that index is outside it. -/
theorem w_args_to_xfer_reads_tmp (t : Target) (a : Nat) (x : i3c_ioc_priv_xfer)
    (arg : List Char) (pec_en : Int) (hpec : pec_en ≠ 0)
    (hal : t.calloc_ok ((data_ptrs arg).length + 1) = true) :
    w_args_to_xfer t a x arg pec_en
      = match (tmp_at_pec_check t arg)[0]? with
        | none => none
        | some b0 =>
          match (if 0xff = b0 then
                  calc_crc8 ((tmp_at_pec_check t arg).drop 1) (((data_ptrs arg).length : Int) - 1) 0
                else (calc_crc8 [first_byte a] 1 0).bind
                  (fun crc => calc_crc8 (tmp_at_pec_check t arg) (data_ptrs arg).length crc)) with
          | none => none
          | some crc =>
            if (data_ptrs arg).length < (tmp_at_pec_check t arg).length then
              some (0, { x with len := to_len t (((data_ptrs arg).length : Int) + 1),
                                data := (tmp_at_pec_check t arg).set (data_ptrs arg).length crc })
            else none := by
  unfold w_args_to_xfer tmp_at_pec_check first_byte
  simp only [ne_eq, hpec, not_false_eq_true, if_true, hal]

/-- The model of the write builder never reports an access outside the buffer: the read
of `tmp[0]`, the reads of `calc_crc8` and the store of the PEC byte are all inside it. -/
theorem w_args_to_xfer_defined (t : Target) (a : Nat) (x : i3c_ioc_priv_xfer)
    (arg : List Char) (pec_en : Int) : w_args_to_xfer t a x arg pec_en ≠ none := by
  by_cases hpec : pec_en = 0
  · subst hpec
    rw [w_args_to_xfer_pec_off]
    split <;> simp
  · rw [w_args_to_xfer_pec_on t a x arg pec_en hpec]
    split <;> simp

/-- C14 as stated fails: for the empty write argument with PEC enabled the buffer at
the 0xFF comparison is the one byte `calloc(0 + 1)` returned, index 0 is inside it and
holds 0, and the builder completes with the descriptor `[0xAE]`. -/
theorem empty_write_pec_check_is_in_bounds :
    write_payload lp64 (cstr "") = []
    ∧ tmp_at_pec_check lp64 (cstr "") = [0]
    ∧ 0 < (tmp_at_pec_check lp64 (cstr "")).length
    ∧ (tmp_at_pec_check lp64 (cstr ""))[0]? = some 0
    ∧ w_args_to_xfer lp64 0x70 xfer_zero (cstr "") 1 = some (0, ⟨[0xAE], 1, 0⟩) := by
  decide!

/-- C14, amended: a zero-length write with PEC enabled does not make the CCC-marker
check read outside its buffer. For every write argument that parses to zero bytes, the
buffer at the 0xFF comparison of `w_args_to_xfer`, which is reached only with PEC
enabled and is allocated by `calloc(i + 1)`, has exactly one byte; index 0 is within it
and the read yields the defined byte 0. -/
theorem zero_length_pec_check_in_bounds (t : Target) (arg : List Char)
    (hP : write_payload t arg = []) :
    (tmp_at_pec_check t arg).length = 1
      ∧ 0 < (tmp_at_pec_check t arg).length
      ∧ (tmp_at_pec_check t arg)[0]? = some 0 := by
  rw [tmp_at_pec_check_eq, hP]
  exact ⟨rfl, by decide, rfl⟩

/-- C14, amended, at the argument made of two commas. -/
theorem zero_length_pec_check_in_bounds_witness :
    write_payload lp64 (cstr ",,") = []
    ∧ ((tmp_at_pec_check lp64 (cstr ",,")).length = 1
      ∧ 0 < (tmp_at_pec_check lp64 (cstr ",,")).length
      ∧ (tmp_at_pec_check lp64 (cstr ",,"))[0]? = some 0) :=
  ⟨by decide!, zero_length_pec_check_in_bounds lp64 (cstr ",,") (by decide!)⟩

/-! ### The table is a permutation: single-byte changes change the CRC -/

/-- The table has 256 entries. -/
theorem crc8_lookup_length : crc8_lookup.length = 256 := by decide!

/-- Each of the 256 entries is found at its own index only, and is a byte. -/
theorem crc8_lookup_index : ∀ i, i < 256 →
    crc8_lookup.indexOf (crc8_at i) = i ∧ crc8_at i < 256 := by
  decide!

/-- Every value read from the table is a byte. -/
theorem crc8_at_lt (i : Nat) : crc8_at i < 256 := by
  by_cases h : i < 256
  · exact (crc8_lookup_index i h).2
  · unfold crc8_at
    rw [List.getD_eq_default _ _ (by rw [crc8_lookup_length]; omega)]
    decide

/-- The table is injective on bytes. -/
theorem crc8_at_injective (i j : Nat) (hi : i < 256) (hj : j < 256)
    (h : crc8_at i = crc8_at j) : i = j := by
  rw [← (crc8_lookup_index i hi).1, ← (crc8_lookup_index j hj).1, h]

/-- The XOR of two bytes is a byte. -/
theorem xor_byte_lt (c b : Nat) (hc : c < 256) (hb : b < 256) : c ^^^ b < 256 :=
  Nat.xor_lt_two_pow (n := 8) hc hb

/-- The CRC of a byte string from a byte seed is a byte. -/
theorem crc8_lt (s : Nat) (bytes : List Nat) (hs : s < 256) : crc8 s bytes < 256 := by
  induction bytes generalizing s with
  | nil => exact hs
  | cons b bytes ih => exact ih _ (crc8_at_lt _)

/-- Different running values stay different over any further bytes. -/
theorem crc8_ne_of_seed_ne (c c' : Nat) (post : List Nat) (hc : c < 256) (hc' : c' < 256)
    (hpost : ∀ b ∈ post, b < 256) (h : c ≠ c') : crc8 c post ≠ crc8 c' post := by
  induction post generalizing c c' with
  | nil => exact h
  | cons b post ih =>
    have hb := hpost b (List.mem_cons_self b post)
    apply ih _ _ (crc8_at_lt _) (crc8_at_lt _) (fun d hd => hpost d (List.mem_cons_of_mem b hd))
    intro heq
    have := crc8_at_injective _ _ (xor_byte_lt c b hc hb) (xor_byte_lt c' b hc' hb) heq
    exact h (Nat.xor_left_inj.1 this)

/-- Two byte strings that differ in exactly one position have different CRCs from
the same byte seed. -/
theorem crc8_ne_of_one_byte (s : Nat) (pre : List Nat) (x y : Nat) (post : List Nat)
    (hs : s < 256) (hx : x < 256) (hy : y < 256) (hpost : ∀ b ∈ post, b < 256) (h : x ≠ y) :
    crc8 s (pre ++ x :: post) ≠ crc8 s (pre ++ y :: post) := by
  have hc := crc8_lt s pre hs
  have e : ∀ z, crc8 s (pre ++ z :: post) = crc8 (crc8_at (crc8 s pre ^^^ z)) post := by
    intro z
    simp [crc8, List.foldl_append]
  rw [e x, e y]
  apply crc8_ne_of_seed_ne _ _ post (crc8_at_lt _) (crc8_at_lt _) hpost
  intro heq
  have := crc8_at_injective _ _ (xor_byte_lt _ x hc hx) (xor_byte_lt _ y hc hy) heq
  exact h (Nat.xor_right_inj.1 this)

/-- A value converted to `uint8_t` is a byte. -/
theorem to_uint8_lt (v : Int) : to_uint8 v < 256 := by
  unfold to_uint8
  omega

/-- The write payload consists of bytes. -/
theorem write_payload_bytes (t : Target) (arg : List Char) :
    ∀ b ∈ write_payload t arg, b < 256 := by
  intro b hb
  simp only [write_payload, List.mem_map] at hb
  obtain ⟨p, _, rfl⟩ := hb
  exact to_uint8_lt _

/-- Two payloads of the same kind (both start with 0xFF, or neither does) that differ
in exactly one position have different PEC bytes. -/
theorem pec_byte_ne_of_one_byte (fb : Nat) (pre : List Nat) (x y : Nat) (post : List Nat)
    (hx : x < 256) (hy : y < 256) (hpost : ∀ b ∈ post, b < 256) (h : x ≠ y)
    (hkind : 0xff = (pre ++ x :: post).headD 0 ↔ 0xff = (pre ++ y :: post).headD 0) :
    pec_byte fb (pre ++ x :: post) ≠ pec_byte fb (pre ++ y :: post) := by
  cases pre with
  | nil =>
    have hx' : ¬ 255 = x := by
      intro hx'
      have : 255 = y := by simpa using hkind.1 (by simpa using hx')
      exact h (hx'.symm.trans this)
    have hy' : ¬ 255 = y := by
      intro hy'
      have : 255 = x := by simpa using hkind.2 (by simpa using hy')
      exact h (this.symm.trans hy')
    simp only [pec_byte, List.nil_append, List.headD_cons, hx', hy', if_false]
    exact crc8_ne_of_one_byte _ [] x y post (crc8_lt 0 [fb] (by decide)) hx hy hpost h
  | cons p pre =>
    by_cases hp : 255 = p
    · simp only [pec_byte, List.cons_append, List.headD_cons, hp, if_true, List.tail_cons]
      exact crc8_ne_of_one_byte 0 pre x y post (by decide) hx hy hpost h
    · simp only [pec_byte, List.cons_append, List.headD_cons, hp, if_false]
      exact crc8_ne_of_one_byte _ (p :: pre) x y post (crc8_lt 0 [fb] (by decide)) hx hy hpost h

/-- The first byte of a CCC payload is not covered by the PEC, and a direct payload can
share the PEC byte of the CCC payload it differs from in that byte only: at address
0x70 the payloads `[0xAE, 0x80]` and `[0xFF, 0x80]` both get 0x89. -/
theorem direct_and_ccc_payload_share_pec :
    pec_covered [0xFF, 0x80] 0 = false
    ∧ write_payload lp64 (cstr "0xAE,0x80") = [0xAE, 0x80]
    ∧ write_payload lp64 (cstr "0xFF,0x80") = [0xFF, 0x80]
    ∧ w_args_to_xfer lp64 0x70 xfer_zero (cstr "0xAE,0x80") 1
        = some (0, ⟨[0xAE, 0x80, 0x89], 3, 0⟩)
    ∧ w_args_to_xfer lp64 0x70 xfer_zero (cstr "0xFF,0x80") 1
        = some (0, ⟨[0xFF, 0x80, 0x89], 3, 0⟩) := by
  decide!

/-- Equal running values stay equal and different ones stay different: over bytes the
CRC from a byte seed determines the seed. -/
theorem crc8_eq_iff_seed_eq (c c' : Nat) (post : List Nat) (hc : c < 256) (hc' : c' < 256)
    (hpost : ∀ b ∈ post, b < 256) : crc8 c post = crc8 c' post ↔ c = c' := by
  constructor
  · intro h
    by_contra hne
    exact crc8_ne_of_seed_ne c c' post hc hc' hpost hne h
  · intro h
    rw [h]

/-- A CCC payload `0xFF :: post` and the direct payload `y :: post` get the same PEC byte
exactly when `y` is the table entry of the address byte. -/
theorem pec_byte_cross_kind (fb y : Nat) (post : List Nat) (hy : y < 256)
    (hy' : y ≠ 0xff) (hpost : ∀ b ∈ post, b < 256) :
    pec_byte fb (0xff :: post) = pec_byte fb (y :: post) ↔ y = crc8_at fb := by
  have hy'' : ¬ 255 = y := fun h => hy' h.symm
  have h0 : crc8_at 0 = 0 := by decide
  have e1 : pec_byte fb (0xff :: post) = crc8 (crc8_at 0) post := by
    simp [pec_byte, h0]
  have e2 : pec_byte fb (y :: post) = crc8 (crc8_at (crc8_at fb ^^^ y)) post := by
    simp [pec_byte, hy'', crc8]
  rw [e1, e2, crc8_eq_iff_seed_eq _ _ post (crc8_at_lt _) (crc8_at_lt _) hpost]
  constructor
  · intro h
    have h2 := crc8_at_injective _ _ (by decide) (xor_byte_lt _ y (crc8_at_lt fb) hy) h
    have h3 : crc8_at fb ^^^ y = crc8_at fb ^^^ crc8_at fb := by
      rw [Nat.xor_self]; exact h2.symm
    exact Nat.xor_right_inj.1 h3
  · intro h
    rw [h, Nat.xor_self]

set_option maxRecDepth 100000 in
/-- C15: `crc8_lookup` is a permutation of 0..255; hence for every seed byte and every
two byte sequences of the same length (at most 255) that differ in exactly one
position, `calc_crc8` returns different values; consequently two write payloads of
equal length that differ in exactly one byte, a byte the PEC covers in both of them,
get different PEC bytes from `w_args_to_xfer` with PEC enabled. (The two sequences are
`pre ++ x :: post` and `pre ++ y :: post` with `x ≠ y`; for the payloads the
allocations are assumed to succeed.) -/
theorem single_byte_change_changes_crc :
    crc8_lookup.Perm (List.range 256)
    ∧ (∀ (s : Nat) (pre : List Nat) (x y : Nat) (post : List Nat),
        s < 256 → (∀ b ∈ pre, b < 256) → x < 256 → y < 256 → (∀ b ∈ post, b < 256) →
        x ≠ y → (pre ++ x :: post).length ≤ 255 →
        ∃ c c', calc_crc8 (pre ++ x :: post) (pre ++ x :: post).length s = some c
          ∧ calc_crc8 (pre ++ y :: post) (pre ++ y :: post).length s = some c' ∧ c ≠ c')
    ∧ (∀ (t : Target) (a : Nat) (x0 : i3c_ioc_priv_xfer) (arg arg' : List Char) (pec_en : Int)
        (pre : List Nat) (x y : Nat) (post : List Nat),
        pec_en ≠ 0 → write_payload t arg = pre ++ x :: post →
        write_payload t arg' = pre ++ y :: post → x ≠ y →
        pec_covered (pre ++ x :: post) pre.length = true →
        pec_covered (pre ++ y :: post) pre.length = true →
        t.calloc_ok ((pre ++ x :: post).length + 1) = true →
        ∃ c c',
          w_args_to_xfer t a x0 arg pec_en
            = some (0, { x0 with len := to_len t ((pre ++ x :: post).length + 1),
                                 data := pre ++ x :: post ++ [c] })
          ∧ w_args_to_xfer t a x0 arg' pec_en
            = some (0, { x0 with len := to_len t ((pre ++ y :: post).length + 1),
                                 data := pre ++ y :: post ++ [c'] })
          ∧ c ≠ c') := by
  refine ⟨by decide!, ?_, ?_⟩
  · intro s pre x y post hs _ hx hy hpost hxy hlen
    have hlen' : (pre ++ y :: post).length ≤ 255 := by simpa using hlen
    refine ⟨crc8 s (pre ++ x :: post), crc8 s (pre ++ y :: post), ?_, ?_, ?_⟩
    · exact calc_crc8_eq_foldl _ s (by omega)
    · exact calc_crc8_eq_foldl _ s (by omega)
    · exact crc8_ne_of_one_byte s pre x y post hs hx hy hpost hxy
  · intro t a x0 arg arg' pec_en pre x y post hpec hP hP' hxy hcx hcy hal
    have hal' : t.calloc_ok ((pre ++ y :: post).length + 1) = true := by simpa using hal
    have hb := write_payload_bytes t arg
    have hb' := write_payload_bytes t arg'
    rw [hP] at hb
    rw [hP'] at hb'
    have hkind : 0xff = (pre ++ x :: post).headD 0 ↔ 0xff = (pre ++ y :: post).headD 0 := by
      cases pre with
      | nil =>
        have hx' : ¬ x = 255 := by simpa [pec_covered] using hcx
        have hy' : ¬ y = 255 := by simpa [pec_covered] using hcy
        constructor
        · intro h
          exact absurd (by simpa using h.symm) hx'
        · intro h
          exact absurd (by simpa using h.symm) hy'
      | cons p pre => simp
    refine ⟨pec_byte (first_byte a) (pre ++ x :: post),
      pec_byte (first_byte a) (pre ++ y :: post), ?_, ?_, ?_⟩
    · rw [w_args_to_xfer_pec_on t a x0 arg pec_en hpec, hP, if_pos hal, first_byte_def]
    · rw [w_args_to_xfer_pec_on t a x0 arg' pec_en hpec, hP', if_pos hal', first_byte_def]
    · exact pec_byte_ne_of_one_byte _ pre x y post (hb x (by simp)) (hb' y (by simp))
        (fun b hbp => hb b (by simp [hbp])) hxy hkind

/-- C15 at seed 0 on `[0x10, 0x20]` against `[0x10, 0x21]`; at address 0x70 on the
write arguments `0x10,0x20` and `0x10,0x21`, which differ in a covered byte. -/
theorem single_byte_change_changes_crc_witness :
    (∃ c c', calc_crc8 ([0x10] ++ 0x20 :: []) ([0x10] ++ 0x20 :: [] : List Nat).length 0 = some c
      ∧ calc_crc8 ([0x10] ++ 0x21 :: []) ([0x10] ++ 0x21 :: [] : List Nat).length 0 = some c'
      ∧ c ≠ c')
    ∧ (pec_covered ([0x10] ++ 0x20 :: []) ([0x10] : List Nat).length = true
      ∧ pec_covered ([0x10] ++ 0x21 :: []) ([0x10] : List Nat).length = true)
    ∧ (∃ c c',
        w_args_to_xfer lp64 0x70 xfer_zero (cstr "0x10,0x20") 1
          = some (0, { xfer_zero with
              len := to_len lp64 (([0x10] ++ 0x20 :: [] : List Nat).length + 1),
              data := [0x10] ++ 0x20 :: [] ++ [c] })
        ∧ w_args_to_xfer lp64 0x70 xfer_zero (cstr "0x10,0x21") 1
          = some (0, { xfer_zero with
              len := to_len lp64 (([0x10] ++ 0x21 :: [] : List Nat).length + 1),
              data := [0x10] ++ 0x21 :: [] ++ [c'] })
        ∧ c ≠ c') :=
  ⟨single_byte_change_changes_crc.2.1 0 [0x10] 0x20 0x21 [] (by decide) (by decide)
     (by decide) (by decide) (by decide) (by decide) (by decide),
   by decide,
   single_byte_change_changes_crc.2.2 lp64 0x70 xfer_zero (cstr "0x10,0x20")
     (cstr "0x10,0x21") 1 [0x10] 0x20 0x21 [] (by decide) (by decide!) (by decide!)
     (by decide) (by decide) (by decide) (by decide)⟩

/-! ### The two scans of the options -/

/-- One round of the first switch counts the option if it is `-r` or `-w` and changes
the address only for `-a`. -/
theorem first_switch_inr (t : Target) (o o' : Options) (opt : Char) (optarg : List Char)
    (h : first_switch t o opt optarg = .inr o') :
    o'.nxfers = o.nxfers + (if is_transfer (opt, optarg) then 1 else 0)
      ∧ o'.dev_dyn_addr = (if opt = 'a' then to_uint32 (strtol t optarg) else o.dev_dyn_addr) := by
  unfold first_switch at h
  unfold is_transfer
  split_ifs at h with h1 h2 h3 h4 h5 h6 <;> simp only [reduceCtorEq, Sum.inr.injEq] at h
  · subst h; subst h3; exact ⟨by simp, by simp⟩
  · subst h; subst h4; exact ⟨by simp, by simp⟩
  · subst h; subst h5; exact ⟨by simp, by simp⟩
  · subst h
    rcases h6 with h6 | h6 <;> subst h6 <;> exact ⟨by simp, by simp⟩

/-- After the first scan `nxfers` has grown by the number of `-r` and `-w` options and
the address is the configured one. -/
theorem first_pass_inr (t : Target) (opts : List (Char × List Char)) (o o' : Options)
    (h : first_pass t o opts = .inr o') :
    o'.nxfers = o.nxfers + (opts.filter is_transfer).length
      ∧ o'.dev_dyn_addr = configured_address t opts o.dev_dyn_addr := by
  induction opts generalizing o with
  | nil =>
    simp only [first_pass, Sum.inr.injEq] at h
    subst h
    simp [configured_address]
  | cons oa rest ih =>
    obtain ⟨opt, optarg⟩ := oa
    unfold first_pass at h
    cases hs : first_switch t o opt optarg with
    | inl status => simp [hs] at h
    | inr o1 =>
      simp only [hs] at h
      obtain ⟨h1, h2⟩ := first_switch_inr t o o1 opt optarg hs
      obtain ⟨h3, h4⟩ := ih o1 h
      refine ⟨?_, ?_⟩
      · rw [h3, h1, List.filter_cons]
        split_ifs
        · simp; omega
        · simp
      · rw [h4, h2, configured_address]

/-- The write builder either returns -1 and leaves the descriptor as it was, or
returns 0 with a descriptor whose direction field is untouched. -/
theorem w_args_to_xfer_cases (t : Target) (a : Nat) (x : i3c_ioc_priv_xfer)
    (arg : List Char) (pec_en : Int) :
    w_args_to_xfer t a x arg pec_en = some (-1, x)
      ∨ ∃ d, w_args_to_xfer t a x arg pec_en = some (0, d) ∧ d.rnw = x.rnw := by
  by_cases hpec : pec_en = 0
  · subst hpec
    rw [w_args_to_xfer_pec_off]
    split
    · exact Or.inr ⟨_, rfl, rfl⟩
    · exact Or.inl rfl
  · rw [w_args_to_xfer_pec_on t a x arg pec_en hpec]
    split
    · exact Or.inr ⟨_, rfl, rfl⟩
    · exact Or.inl rfl

/-- The element just after a prefix of the array. -/
theorem xfers_get_after_prefix (pre : List i3c_ioc_priv_xfer) (x : i3c_ioc_priv_xfer)
    (zs : List i3c_ioc_priv_xfer) : (pre ++ x :: zs)[pre.length]? = some x := by
  induction pre with
  | nil => simp
  | cons a pre ih => simpa using ih

/-- Storing just after a prefix of the array. -/
theorem xfers_set_after_prefix (pre : List i3c_ioc_priv_xfer) (x v : i3c_ioc_priv_xfer)
    (zs : List i3c_ioc_priv_xfer) : (pre ++ x :: zs).set pre.length v = pre ++ v :: zs := by
  induction pre with
  | nil => rfl
  | cons a pre ih => simp [ih]

/-- One round of the second switch leaves `dev_dyn_addr` as it was. -/
theorem second_switch_keeps_address (t : Target) (pec_en : Int) (st st' : BuildState)
    (opt : Char) (optarg : List Char)
    (h : second_switch t pec_en st opt optarg = .done st'
      ∨ second_switch t pec_en st opt optarg = .failed st') :
    st'.dev_dyn_addr = st.dev_dyn_addr := by
  unfold second_switch at h
  split_ifs at h with h1 h2
  · split at h
    · simp at h
    · split_ifs at h <;> rcases h with h | h <;> simp only [Pass.done.injEq, Pass.failed.injEq,
        reduceCtorEq] at h <;> subst h <;> rfl
  · split at h
    · simp at h
    · split at h
      · simp at h
      · split_ifs at h <;> rcases h with h | h <;> simp only [Pass.done.injEq,
          Pass.failed.injEq, reduceCtorEq] at h <;> subst h <;> rfl
  · rcases h with h | h <;> simp only [Pass.done.injEq, reduceCtorEq] at h
    subst h
    rfl

/-- The second scan never assigns `dev_dyn_addr`: however it ends, the address is the
one it started with. -/
theorem second_pass_keeps_address (t : Target) (pec_en : Int)
    (opts : List (Char × List Char)) (st st' : BuildState)
    (h : second_pass t pec_en st opts = .done st' ∨ second_pass t pec_en st opts = .failed st') :
    st'.dev_dyn_addr = st.dev_dyn_addr := by
  induction opts generalizing st with
  | nil =>
    rcases h with h | h <;> simp only [second_pass, Pass.done.injEq, reduceCtorEq] at h
    subst h
    rfl
  | cons oa rest ih =>
    obtain ⟨opt, optarg⟩ := oa
    unfold second_pass at h
    cases hs : second_switch t pec_en st opt optarg with
    | done st1 =>
      simp only [hs] at h
      rw [ih st1 h]
      exact second_switch_keeps_address t pec_en st st1 opt optarg (Or.inl hs)
    | failed st1 =>
      simp only [hs, reduceCtorEq, Pass.failed.injEq, false_or] at h
      subst h
      exact second_switch_keeps_address t pec_en st st1 opt optarg (Or.inr hs)
    | undefined => simp [hs] at h

/-- The second switch on `-r` when the array has a free element at `nxfers`. -/
theorem second_switch_read (t : Target) (pec_en : Int) (a : Nat)
    (built : List i3c_ioc_priv_xfer) (k : Nat) (optarg : List Char) :
    second_switch t pec_en ⟨a, built ++ List.replicate (k + 1) xfer_zero, built.length⟩
        'r' optarg
      = if (rx_args_to_xfer t optarg xfer_zero optarg).1 ≠ 0 then
          .failed ⟨a, built ++ List.replicate (k + 1) xfer_zero, built.length⟩
        else
          .done ⟨a, (built ++ [(rx_args_to_xfer t optarg xfer_zero optarg).2])
                      ++ List.replicate k xfer_zero,
                    (built ++ [(rx_args_to_xfer t optarg xfer_zero optarg).2]).length⟩ := by
  simp only [second_switch, if_true, List.replicate_succ, xfers_get_after_prefix,
    xfers_set_after_prefix, List.append_assoc, List.singleton_append, List.length_append,
    List.length_singleton]

/-- The second switch on `-w` when the array has a free element at `nxfers`. -/
theorem second_switch_write (t : Target) (pec_en : Int) (a : Nat)
    (built : List i3c_ioc_priv_xfer) (k : Nat) (optarg : List Char) :
    second_switch t pec_en ⟨a, built ++ List.replicate (k + 1) xfer_zero, built.length⟩
        'w' optarg
      = match w_args_to_xfer t a xfer_zero optarg pec_en with
        | none => .undefined
        | some r =>
          if r.1 ≠ 0 then .failed ⟨a, built ++ List.replicate (k + 1) xfer_zero, built.length⟩
          else .done ⟨a, (built ++ [r.2]) ++ List.replicate k xfer_zero,
                        (built ++ [r.2]).length⟩ := by
  have h : ('w' : Char) ≠ 'r' := by decide
  simp only [second_switch, h, if_false, if_true, List.replicate_succ, xfers_get_after_prefix,
    xfers_set_after_prefix, List.append_assoc, List.singleton_append, List.length_append,
    List.length_singleton]

/-- The second switch on an option other than `-r` and `-w` does nothing. -/
theorem second_switch_other (t : Target) (pec_en : Int) (st : BuildState) (opt : Char)
    (optarg : List Char) (hr : opt ≠ 'r') (hw : opt ≠ 'w') :
    second_switch t pec_en st opt optarg = .done st := by
  simp only [second_switch, hr, hw, if_false]

/-- The second scan, started on an array with enough free elements: either it runs to
the end, having stored after the descriptors already built one descriptor per `-r` or
`-w` option, in order, each built from its option with the address `a`; or it leaves
through `err_free` because some builder returned a non-zero value. -/
theorem second_pass_from (t : Target) (pec_en : Int) (a : Nat)
    (opts : List (Char × List Char)) :
    ∀ (built : List i3c_ioc_priv_xfer) (k : Nat), (opts.filter is_transfer).length ≤ k →
      (∃ ds, second_pass t pec_en ⟨a, built ++ List.replicate k xfer_zero, built.length⟩ opts
            = .done ⟨a, built ++ ds ++ List.replicate (k - ds.length) xfer_zero,
                     built.length + ds.length⟩
          ∧ List.Forall₂ (built_from t a pec_en) (opts.filter is_transfer) ds)
      ∨ (∃ st, second_pass t pec_en ⟨a, built ++ List.replicate k xfer_zero, built.length⟩ opts
            = .failed st
          ∧ ∃ oa ∈ opts,
              (oa.1 = 'r' ∧ (rx_args_to_xfer t oa.2 xfer_zero oa.2).1 ≠ 0)
              ∨ (oa.1 = 'w' ∧ w_args_to_xfer t a xfer_zero oa.2 pec_en = some (-1, xfer_zero))) := by
  induction opts with
  | nil =>
    intro built k _
    exact Or.inl ⟨[], by simp [second_pass], List.Forall₂.nil⟩
  | cons oa rest ih =>
    obtain ⟨opt, optarg⟩ := oa
    intro built k hk
    by_cases hr : opt = 'r'
    · subst hr
      have hT : is_transfer ('r', optarg) = true := by simp [is_transfer]
      rw [List.filter_cons_of_pos hT] at hk ⊢
      obtain ⟨k, rfl⟩ : ∃ k', k = k' + 1 := ⟨k - 1, by simp at hk; omega⟩
      unfold second_pass
      rw [second_switch_read]
      by_cases hrx : (rx_args_to_xfer t optarg xfer_zero optarg).1 ≠ 0
      · rw [if_pos hrx]
        exact Or.inr ⟨_, rfl, ('r', optarg), List.mem_cons_self _ _, Or.inl ⟨rfl, hrx⟩⟩
      · rw [if_neg hrx]
        have hrx0 : (rx_args_to_xfer t optarg xfer_zero optarg).1 = 0 := by simpa using hrx
        have hrnw : (rx_args_to_xfer t optarg xfer_zero optarg).2.rnw = 1 := by
          simp only [rx_args_to_xfer] at hrx0 ⊢
          split_ifs at hrx0 ⊢ with hc
          · rfl
          · simp at hrx0
        rcases ih (built ++ [(rx_args_to_xfer t optarg xfer_zero optarg).2]) k
            (by simp at hk; omega) with ⟨ds, h1, h2⟩ | ⟨st, h1, oa, hoa, h2⟩
        · refine Or.inl ⟨(rx_args_to_xfer t optarg xfer_zero optarg).2 :: ds, ?_, ?_⟩
          · refine h1.trans ?_
            simp [Nat.add_assoc, Nat.add_comm 1]
          · exact List.Forall₂.cons (Or.inl ⟨rfl, Prod.ext hrx0 rfl, hrnw⟩) h2
        · exact Or.inr ⟨st, h1, oa, List.mem_cons_of_mem _ hoa, h2⟩
    · by_cases hw : opt = 'w'
      · subst hw
        have hT : is_transfer ('w', optarg) = true := by simp [is_transfer]
        rw [List.filter_cons_of_pos hT] at hk ⊢
        obtain ⟨k, rfl⟩ : ∃ k', k = k' + 1 := ⟨k - 1, by simp at hk; omega⟩
        unfold second_pass
        rw [second_switch_write]
        rcases w_args_to_xfer_cases t a xfer_zero optarg pec_en with hf | ⟨d, hd, hrnw⟩
        · refine Or.inr ⟨⟨a, built ++ List.replicate (k + 1) xfer_zero, built.length⟩, ?_,
            ('w', optarg), List.mem_cons_self _ _, Or.inr ⟨rfl, hf⟩⟩
          simp [hf]
        · simp only [hd, ne_eq, not_true_eq_false, if_false]
          rcases ih (built ++ [d]) k (by simp at hk; omega) with
            ⟨ds, h1, h2⟩ | ⟨st, h1, oa, hoa, h2⟩
          · refine Or.inl ⟨d :: ds, ?_, ?_⟩
            · refine h1.trans ?_
              simp [Nat.add_assoc, Nat.add_comm 1]
            · exact List.Forall₂.cons (Or.inr ⟨rfl, hd, hrnw⟩) h2
          · exact Or.inr ⟨st, h1, oa, List.mem_cons_of_mem _ hoa, h2⟩
      · have hT : ¬ (is_transfer (opt, optarg) = true) := by simp [is_transfer, hr, hw]
        rw [List.filter_cons_of_neg hT] at hk ⊢
        unfold second_pass
        rw [second_switch_other t pec_en _ opt optarg hr hw]
        rcases ih built k hk with ⟨ds, h1, h2⟩ | ⟨st, h1, oa, hoa, h2⟩
        · exact Or.inl ⟨ds, h1, h2⟩
        · exact Or.inr ⟨st, h1, oa, List.mem_cons_of_mem _ hoa, h2⟩

/-- When the first scan completes, the device opens and the array is allocated,
`main` goes on to the second scan with the array zeroed and `nxfers = 0`. -/
theorem main_build_second_pass (t : Target) (sys : Sys) (opts : List (Char × List Char))
    (o : Options) (dev : List Char) (h1 : first_pass t (options_init sys) opts = .inr o)
    (hdev : o.device = some dev) (hopen : sys.open_ok dev = true)
    (hcal : sys.xfers_calloc_ok o.nxfers = true) :
    main_build t sys opts
      = match second_pass t o.pec_en
            ⟨o.dev_dyn_addr, List.replicate o.nxfers xfer_zero, 0⟩ opts with
        | .done st => some (.submit (st.xfers.take st.nxfers))
        | .failed _ => some (.exit 1)
        | .undefined => none := by
  simp only [main_build, h1, hdev, hopen, hcal, if_true]

/-- The second scan as `main` starts it, with as many array elements as the first scan
counted: it either stores exactly the descriptors of the `-r` and `-w` options, in
order, or fails because a builder failed. -/
theorem second_pass_in_main (t : Target) (pec_en : Int) (a : Nat)
    (opts : List (Char × List Char)) :
    (∃ ds, second_pass t pec_en
            ⟨a, List.replicate (opts.filter is_transfer).length xfer_zero, 0⟩ opts
          = .done ⟨a, ds, ds.length⟩
        ∧ List.Forall₂ (built_from t a pec_en) (opts.filter is_transfer) ds)
    ∨ (∃ st, second_pass t pec_en
            ⟨a, List.replicate (opts.filter is_transfer).length xfer_zero, 0⟩ opts
          = .failed st
        ∧ ∃ oa ∈ opts,
            (oa.1 = 'r' ∧ (rx_args_to_xfer t oa.2 xfer_zero oa.2).1 ≠ 0)
            ∨ (oa.1 = 'w' ∧ w_args_to_xfer t a xfer_zero oa.2 pec_en = some (-1, xfer_zero))) := by
  rcases second_pass_from t pec_en a opts [] _ (Nat.le_refl _) with
    ⟨ds, h1, h2⟩ | ⟨st, h1, h2⟩
  · refine Or.inl ⟨ds, ?_, h2⟩
    have hl := h2.length_eq
    simp only [List.nil_append, List.length_nil, Nat.zero_add] at h1
    rw [h1, hl]
    simp
  · exact Or.inr ⟨st, by simpa using h1, h2⟩

/-- C12: batch order. For every sequence of options on which the first scan completes,
the device opens and the array is allocated, when all builds succeed the submitted
batch has exactly one descriptor per `-r`/`-w` occurrence, and its descriptors are, in
order, those built from the `-r`/`-w` occurrences in order (a Read, `rnw = 1`, by
`rx_args_to_xfer` for `-r`; a Write, `rnw = 0`, by `w_args_to_xfer` for `-w`); the
other options contribute no descriptor. -/
theorem batch_order (t : Target) (sys : Sys) (opts : List (Char × List Char))
    (o : Options) (dev : List Char) (h1 : first_pass t (options_init sys) opts = .inr o)
    (hdev : o.device = some dev) (hopen : sys.open_ok dev = true)
    (hcal : sys.xfers_calloc_ok o.nxfers = true)
    (hbuilds : ∀ oa ∈ opts,
      (oa.1 = 'r' → (rx_args_to_xfer t oa.2 xfer_zero oa.2).1 = 0)
      ∧ (oa.1 = 'w' →
          (w_args_to_xfer t o.dev_dyn_addr xfer_zero oa.2 o.pec_en).map Prod.fst = some 0)) :
    ∃ batch, main_build t sys opts = some (.submit batch)
      ∧ batch.length = (opts.filter is_transfer).length
      ∧ List.Forall₂ (built_from t o.dev_dyn_addr o.pec_en) (opts.filter is_transfer) batch
      ∧ ∀ r, main t sys opts = some r → r.submitted = some batch := by
  have hn : o.nxfers = (opts.filter is_transfer).length := by
    have := (first_pass_inr t opts _ o h1).1
    simpa [options_init] using this
  have hmb := main_build_second_pass t sys opts o dev h1 hdev hopen hcal
  rw [hn] at hmb
  rcases second_pass_in_main t o.pec_en o.dev_dyn_addr opts with
    ⟨ds, h2, h3⟩ | ⟨st, _, oa, hoa, h3⟩
  · rw [h2] at hmb
    simp only [List.take_length] at hmb
    refine ⟨ds, hmb, h3.length_eq.symm, h3, ?_⟩
    intro r hr
    unfold main at hr
    rw [hmb] at hr
    simp only at hr
    split at hr
    · simp only [Option.some.injEq] at hr
      subst hr
      rfl
    · split at hr
      · simp at hr
      · simp only [Option.some.injEq] at hr
        subst hr
        rfl
  · exfalso
    rcases h3 with ⟨hr, hne⟩ | ⟨hw, hf⟩
    · exact hne ((hbuilds oa hoa).1 hr)
    · have hd := (hbuilds oa hoa).2 hw
      rw [hf] at hd
      simp at hd

/-- C12 on the command line `-p 0 -w 0x01,0x02 -d /dev/i3c-0 -r 2 -a 0x08`: the batch
is the write `[1, 2]` followed by the read of 2 bytes. -/
theorem batch_order_witness :
    (first_pass lp64 (options_init sys_demo)
        [('p', cstr "0"), ('w', cstr "0x01,0x02"), ('d', cstr "/dev/i3c-0"),
         ('r', cstr "2"), ('a', cstr "0x08")]
        = .inr ⟨some (cstr "/dev/i3c-0"), 0, 0x08, 2⟩
      ∧ sys_demo.open_ok (cstr "/dev/i3c-0") = true
      ∧ sys_demo.xfers_calloc_ok 2 = true
      ∧ ∀ oa ∈ [('p', cstr "0"), ('w', cstr "0x01,0x02"), ('d', cstr "/dev/i3c-0"),
                ('r', cstr "2"), ('a', cstr "0x08")],
          (oa.1 = 'r' → (rx_args_to_xfer lp64 oa.2 xfer_zero oa.2).1 = 0)
          ∧ (oa.1 = 'w' →
              (w_args_to_xfer lp64 0x08 xfer_zero oa.2 0).map Prod.fst = some 0))
    ∧ (∃ batch,
        main_build lp64 sys_demo
            [('p', cstr "0"), ('w', cstr "0x01,0x02"), ('d', cstr "/dev/i3c-0"),
             ('r', cstr "2"), ('a', cstr "0x08")]
          = some (.submit batch)
        ∧ batch.length
          = ([('p', cstr "0"), ('w', cstr "0x01,0x02"), ('d', cstr "/dev/i3c-0"),
              ('r', cstr "2"), ('a', cstr "0x08")].filter is_transfer).length
        ∧ List.Forall₂ (built_from lp64 0x08 0)
            ([('p', cstr "0"), ('w', cstr "0x01,0x02"), ('d', cstr "/dev/i3c-0"),
              ('r', cstr "2"), ('a', cstr "0x08")].filter is_transfer) batch
        ∧ ∀ r, main lp64 sys_demo
              [('p', cstr "0"), ('w', cstr "0x01,0x02"), ('d', cstr "/dev/i3c-0"),
               ('r', cstr "2"), ('a', cstr "0x08")] = some r → r.submitted = some batch)
    ∧ main_build lp64 sys_demo
        [('p', cstr "0"), ('w', cstr "0x01,0x02"), ('d', cstr "/dev/i3c-0"),
         ('r', cstr "2"), ('a', cstr "0x08")]
      = some (.submit [⟨[1, 2], 2, 0⟩, ⟨[0, 0], 2, 1⟩]) :=
  ⟨by decide!,
   batch_order lp64 sys_demo
     [('p', cstr "0"), ('w', cstr "0x01,0x02"), ('d', cstr "/dev/i3c-0"),
      ('r', cstr "2"), ('a', cstr "0x08")]
     ⟨some (cstr "/dev/i3c-0"), 0, 0x08, 2⟩ (cstr "/dev/i3c-0")
     (by decide!) rfl (by decide!) (by decide!) (by decide!),
   by decide!⟩

/-- C13: the target dynamic address is fixed before any descriptor is built and never
changes during building. For every sequence of options on which the first scan
completes: the address after the first scan is the default 0x70 or what the last `-a`
option says; the second scan, from whatever state and however it ends, leaves
`dev_dyn_addr` as it found it; and if `main` submits a batch, every write descriptor in
it is built by `w_args_to_xfer` with that one address, wherever the `-a` option stands
relative to the `-w` options. -/
theorem address_fixed_before_building (t : Target) (sys : Sys)
    (opts : List (Char × List Char)) (o : Options)
    (h1 : first_pass t (options_init sys) opts = .inr o) :
    o.dev_dyn_addr = configured_address t opts 0x70
      ∧ (∀ st st', (second_pass t o.pec_en st opts = .done st'
            ∨ second_pass t o.pec_en st opts = .failed st') →
          st'.dev_dyn_addr = st.dev_dyn_addr)
      ∧ (∀ batch, main_build t sys opts = some (.submit batch) →
          List.Forall₂ (built_from t (configured_address t opts 0x70) o.pec_en)
            (opts.filter is_transfer) batch) := by
  have ha : o.dev_dyn_addr = configured_address t opts 0x70 := by
    have := (first_pass_inr t opts _ o h1).2
    simpa [options_init] using this
  have hn : o.nxfers = (opts.filter is_transfer).length := by
    have := (first_pass_inr t opts _ o h1).1
    simpa [options_init] using this
  refine ⟨ha, fun st st' h => second_pass_keeps_address t o.pec_en opts st st' h, ?_⟩
  intro batch hb
  simp only [main_build, h1] at hb
  split at hb
  · simp at hb
  · split_ifs at hb with hopen hcal
    · rw [hn] at hb
      rcases second_pass_in_main t o.pec_en o.dev_dyn_addr opts with
        ⟨ds, h2, h3⟩ | ⟨st, h2, _⟩
      · rw [h2] at hb
        simp only [List.take_length, Option.some.injEq, Built.submit.injEq] at hb
        subst hb
        rw [← ha]
        exact h3
      · rw [h2] at hb
        simp at hb
    · simp at hb
    · simp at hb

/-- C13 on the command line `-w 0x10 -p 1 -a 0x08 -d /dev/i3c-0 -w 0x10`, where the
address option stands between two writes: both writes are built with the address 0x08
and get the PEC byte 0x27. -/
theorem address_fixed_before_building_witness :
    first_pass lp64 (options_init sys_demo)
        [('w', cstr "0x10"), ('p', cstr "1"), ('a', cstr "0x08"),
         ('d', cstr "/dev/i3c-0"), ('w', cstr "0x10")]
      = .inr ⟨some (cstr "/dev/i3c-0"), 1, 0x08, 2⟩
    ∧ ((⟨some (cstr "/dev/i3c-0"), 1, 0x08, 2⟩ : Options).dev_dyn_addr
        = configured_address lp64
            [('w', cstr "0x10"), ('p', cstr "1"), ('a', cstr "0x08"),
             ('d', cstr "/dev/i3c-0"), ('w', cstr "0x10")] 0x70
      ∧ (∀ st st',
          (second_pass lp64 (⟨some (cstr "/dev/i3c-0"), 1, 0x08, 2⟩ : Options).pec_en st
              [('w', cstr "0x10"), ('p', cstr "1"), ('a', cstr "0x08"),
               ('d', cstr "/dev/i3c-0"), ('w', cstr "0x10")] = .done st'
            ∨ second_pass lp64 (⟨some (cstr "/dev/i3c-0"), 1, 0x08, 2⟩ : Options).pec_en st
              [('w', cstr "0x10"), ('p', cstr "1"), ('a', cstr "0x08"),
               ('d', cstr "/dev/i3c-0"), ('w', cstr "0x10")] = .failed st') →
          st'.dev_dyn_addr = st.dev_dyn_addr)
      ∧ (∀ batch,
          main_build lp64 sys_demo
              [('w', cstr "0x10"), ('p', cstr "1"), ('a', cstr "0x08"),
               ('d', cstr "/dev/i3c-0"), ('w', cstr "0x10")] = some (.submit batch) →
          List.Forall₂
            (built_from lp64
              (configured_address lp64
                [('w', cstr "0x10"), ('p', cstr "1"), ('a', cstr "0x08"),
                 ('d', cstr "/dev/i3c-0"), ('w', cstr "0x10")] 0x70)
              (⟨some (cstr "/dev/i3c-0"), 1, 0x08, 2⟩ : Options).pec_en)
            ([('w', cstr "0x10"), ('p', cstr "1"), ('a', cstr "0x08"),
              ('d', cstr "/dev/i3c-0"), ('w', cstr "0x10")].filter is_transfer) batch))
    ∧ configured_address lp64
        [('w', cstr "0x10"), ('p', cstr "1"), ('a', cstr "0x08"),
         ('d', cstr "/dev/i3c-0"), ('w', cstr "0x10")] 0x70 = 0x08
    ∧ main_build lp64 sys_demo
        [('w', cstr "0x10"), ('p', cstr "1"), ('a', cstr "0x08"),
         ('d', cstr "/dev/i3c-0"), ('w', cstr "0x10")]
      = some (.submit [⟨[0x10, 0x27], 2, 0⟩, ⟨[0x10, 0x27], 2, 0⟩])
    ∧ w_args_to_xfer lp64 0x08 xfer_zero (cstr "0x10") 1 = some (0, ⟨[0x10, 0x27], 2, 0⟩)
    ∧ w_args_to_xfer lp64 0x70 xfer_zero (cstr "0x10") 1 = some (0, ⟨[0x10, 0x33], 2, 0⟩) :=
  ⟨by decide!,
   address_fixed_before_building lp64 sys_demo
     [('w', cstr "0x10"), ('p', cstr "1"), ('a', cstr "0x08"),
      ('d', cstr "/dev/i3c-0"), ('w', cstr "0x10")]
     ⟨some (cstr "/dev/i3c-0"), 1, 0x08, 2⟩ (by decide!),
   by decide!, by decide!, by decide!, by decide!⟩

/-! ### The result report -/

/-- The byte just after a prefix of a buffer. -/
theorem bytes_get_after_prefix (pre : List Nat) (x : Nat) (zs : List Nat) :
    (pre ++ x :: zs)[pre.length]? = some x := by
  induction pre with
  | nil => simp
  | cons a pre ih => simpa using ih

/-- The printing loop of `print_rx_data`, started at index `|pre|` with as many rounds
as bytes remain, prints one line per remaining byte, in order, and stays inside
`tmp`. -/
theorem print_rx_loop_eq (pre rest : List Nat) :
    print_rx_loop (pre ++ rest) rest.length pre.length
      = some ((rest.map (fun b => cstr "    0x" ++ print_02x b ++ cstr "\n")).flatten) := by
  induction rest generalizing pre with
  | nil => simp [print_rx_loop]
  | cons b rest ih =>
    have h := ih (pre ++ [b])
    simp only [List.append_assoc, List.singleton_append, List.length_append,
      List.length_singleton] at h
    simp only [List.length_cons, print_rx_loop, bytes_get_after_prefix, h, List.map_cons,
      List.flatten_cons, List.append_assoc]

/-- When its allocation succeeds and the buffer holds at least `len` bytes,
`print_rx_data` prints the header and one line for each of the first `len` bytes. -/
theorem print_rx_data_eq (t : Target) (x : i3c_ioc_priv_xfer)
    (hal : t.calloc_ok x.len = true) (hlen : x.len ≤ x.data.length) :
    print_rx_data t x
      = some (cstr "  received data:\n"
          ++ ((x.data.take x.len).map
                (fun b => cstr "    0x" ++ print_02x b ++ cstr "\n")).flatten) := by
  have hl : (x.data.take x.len).length = x.len := by
    rw [List.length_take]; omega
  have h := print_rx_loop_eq [] (x.data.take x.len)
  rw [hl] at h
  simp only [List.nil_append, List.length_nil] at h
  simp only [print_rx_data, hal, hlen, if_true, h]

/-- The report loop, started at index `|pre|` with as many rounds as descriptors
remain, prints the entries of the remaining descriptors in order. -/
theorem report_loop_eq (t : Target) (pre rest : List i3c_ioc_priv_xfer)
    (hrd : ∀ x ∈ rest, x.rnw ≠ 0 → t.calloc_ok x.len = true ∧ x.len ≤ x.data.length) :
    report_loop t (pre ++ rest) rest.length pre.length = some (report_text pre.length rest) := by
  induction rest generalizing pre with
  | nil => simp [report_loop, report_text]
  | cons x rest ih =>
    have h := ih (pre ++ [x]) (fun y hy => hrd y (List.mem_cons_of_mem x hy))
    simp only [List.append_assoc, List.singleton_append, List.length_append,
      List.length_singleton] at h
    by_cases hx : x.rnw ≠ 0
    · obtain ⟨hal, hlen⟩ := hrd x (List.mem_cons_self x rest) hx
      simp only [List.length_cons, report_loop, xfers_get_after_prefix, if_pos hx,
        print_rx_data_eq t x hal hlen, h, report_text, report_entry, List.append_assoc]
    · simp only [List.length_cons, report_loop, xfers_get_after_prefix, hx, if_false, h,
        report_text, report_entry, List.append_assoc, List.append_nil, List.nil_append]

/-- C11: result report. For every run of `main` in which a batch is submitted and the
request succeeds, leaving as many descriptors as were submitted, the program exits
with status 0 and the report is `report_text 0`: the entries of the descriptors in
index order 0..N-1, each a success line, followed by nothing for a Write descriptor
(`rnw = 0`) and, for a Read descriptor of length `k`, by the data header and exactly
`k` hex-printed bytes, the first `k` bytes of its buffer in order. (For each Read
descriptor the allocation in `print_rx_data` is assumed to succeed and the buffer to
hold at least `k` bytes.) -/
theorem result_report (t : Target) (sys : Sys) (opts : List (Char × List Char))
    (batch xs : List i3c_ioc_priv_xfer)
    (hb : main_build t sys opts = some (.submit batch))
    (hio : sys.ioctl batch = some xs) (hlen : xs.length = batch.length)
    (hrd : ∀ x ∈ xs, x.rnw ≠ 0 → t.calloc_ok x.len = true ∧ x.len ≤ x.data.length) :
    main t sys opts = some ⟨0, some batch, report_text 0 xs⟩
      ∧ (∀ i x, report_entry i x
          = cstr "Success on message " ++ print_d i ++ cstr "\n"
            ++ (if x.rnw ≠ 0 then
                  cstr "  received data:\n"
                    ++ ((x.data.take x.len).map
                          (fun b => cstr "    0x" ++ print_02x b ++ cstr "\n")).flatten
                else []))
      ∧ (∀ x ∈ xs, x.rnw ≠ 0 → (x.data.take x.len).length = x.len) := by
  refine ⟨?_, fun i x => rfl, ?_⟩
  · have h := report_loop_eq t [] xs hrd
    simp only [List.nil_append, List.length_nil] at h
    simp only [main, hb, hio, ← hlen, h]
  · intro x hx hr
    rw [List.length_take]
    have := (hrd x hx hr).2
    omega

/-- C11 on the command line `-d /dev/i3c-0 -w 0x01,0x02 -r 2` (PEC disabled): success
for message 0 with no dump, then success for message 1 followed by the header and
exactly 2 bytes, those of the read buffer in order. -/
theorem result_report_witness :
    (main_build lp64 sys_demo
        [('d', cstr "/dev/i3c-0"), ('w', cstr "0x01,0x02"), ('r', cstr "2")]
        = some (.submit [⟨[1, 2], 2, 0⟩, ⟨[0, 0], 2, 1⟩])
      ∧ sys_demo.ioctl [⟨[1, 2], 2, 0⟩, ⟨[0, 0], 2, 1⟩]
        = some [⟨[1, 2], 2, 0⟩, ⟨[0xAB, 0xAC], 2, 1⟩]
      ∧ ([⟨[1, 2], 2, 0⟩, ⟨[0xAB, 0xAC], 2, 1⟩] : List i3c_ioc_priv_xfer).length
        = ([⟨[1, 2], 2, 0⟩, ⟨[0, 0], 2, 1⟩] : List i3c_ioc_priv_xfer).length
      ∧ ∀ x ∈ ([⟨[1, 2], 2, 0⟩, ⟨[0xAB, 0xAC], 2, 1⟩] : List i3c_ioc_priv_xfer),
          x.rnw ≠ 0 → lp64.calloc_ok x.len = true ∧ x.len ≤ x.data.length)
    ∧ (main lp64 sys_demo
          [('d', cstr "/dev/i3c-0"), ('w', cstr "0x01,0x02"), ('r', cstr "2")]
        = some ⟨0, some [⟨[1, 2], 2, 0⟩, ⟨[0, 0], 2, 1⟩],
                report_text 0 [⟨[1, 2], 2, 0⟩, ⟨[0xAB, 0xAC], 2, 1⟩]⟩
      ∧ (∀ i x, report_entry i x
          = cstr "Success on message " ++ print_d i ++ cstr "\n"
            ++ (if x.rnw ≠ 0 then
                  cstr "  received data:\n"
                    ++ ((x.data.take x.len).map
                          (fun b => cstr "    0x" ++ print_02x b ++ cstr "\n")).flatten
                else []))
      ∧ (∀ x ∈ ([⟨[1, 2], 2, 0⟩, ⟨[0xAB, 0xAC], 2, 1⟩] : List i3c_ioc_priv_xfer),
          x.rnw ≠ 0 → (x.data.take x.len).length = x.len))
    ∧ report_text 0 [⟨[1, 2], 2, 0⟩, ⟨[0xAB, 0xAC], 2, 1⟩]
      = cstr "Success on message 0\nSuccess on message 1\n  received data:\n    0xab\n    0xac\n" :=
  ⟨by decide!,
   result_report lp64 sys_demo
     [('d', cstr "/dev/i3c-0"), ('w', cstr "0x01,0x02"), ('r', cstr "2")]
     [⟨[1, 2], 2, 0⟩, ⟨[0, 0], 2, 1⟩] [⟨[1, 2], 2, 0⟩, ⟨[0xAB, 0xAC], 2, 1⟩]
     (by decide!) (by decide!) (by decide) (by decide!),
   by decide!⟩

end I3CTransfer
